import Mathlib

/-!
Verification of the request-resilience and caching layer of the
`last-30-days` CLI (files `src/lib/http.ts`, `src/lib/cache.ts` — shipped
here as `src/lib/ui.ts` — and the orchestrating tasks in `src/cli.ts`).

The TypeScript code is shallowly embedded: pure computations become Lean
functions, effectful primitives (the JSON codec, SHA-256 hashing,
`Date.parse`, `Number(...)`, the filesystem, the network) become explicit
parameters or environment inputs, and each claim of the specification is
settled against the embedding.
-/

namespace LastDays

/-! ## Basic string helpers (embedding of JS string primitives) -/

/-- JS `String.prototype.trim` on a list of characters: drop whitespace from
both ends. -/
def trimChars (l : List Char) : List Char :=
  ((l.dropWhile Char.isWhitespace).reverse.dropWhile Char.isWhitespace).reverse

/-- One pass of the JS regex replace `/\s+/g, ' '`: every maximal run of
whitespace becomes a single space.  The boolean argument records whether the
previous character was part of a whitespace run already emitted. -/
def collapseWs : List Char → Bool → List Char
  | [], _ => []
  | c :: rest, prevWs =>
    if c.isWhitespace then
      (if prevWs then [] else [' ']) ++ collapseWs rest true
    else
      c :: collapseWs rest false

/-- JS `String.prototype.toLowerCase` as a per-character map. -/
def strLower (s : String) : String :=
  ⟨s.data.map Char.toLower⟩

/-- Little-endian decimal digits of `n`, computed with explicit structural
fuel (the fuel is sufficient whenever `n ≤ fuel`). -/
def digitsLE : ℕ → ℕ → List ℕ
  | _, 0 => []
  | 0, _ + 1 => []
  | f + 1, n + 1 => ((n + 1) % 10) :: digitsLE f ((n + 1) / 10)

/-- Decimal string of a natural number: the embedding of JS number →
string conversion (template literal `${n}`) for non-negative integers. -/
def natToString (n : ℕ) : String :=
  if n = 0 then "0"
  else ⟨((digitsLE n n).map Nat.digitChar).reverse⟩

/-! ## Cache key derivation (`getSourceCacheKey`, `src/lib/ui.ts:615-649`) -/

/-- `SEARCH_CACHE_SCHEMA_VERSION` — bumped when record semantics change. -/
def SEARCH_CACHE_SCHEMA_VERSION : String := "v2"

/-- `normalizeTopic`: `topic.trim().toLowerCase().replace(/\s+/g, ' ')`. -/
def normalizeTopic (topic : String) : String :=
  ⟨collapseWs ((trimChars topic.data).map Char.toLower) false⟩

/-- The `source` argument of `getSourceCacheKey` is the literal union
`'reddit' | 'x'`. -/
inductive Source where
  | reddit
  | x
deriving DecidableEq

/-- String interpolation of a `Source` literal. -/
def Source.str : Source → String
  | .reddit => "reddit"
  | .x => "x"

/-- The joined key-data string that `getSourceCacheKey` feeds to the hash:
`[schema=…, topic=…, from=…, to=…, days=…, source=…, depth=…, model=…,
prompt=…].join('|')`. -/
def sourceKeyData (topic fromDate toDate : String) (days : ℕ) (source : Source)
    (depth : String) (modelSel : Option String) (promptVersion : String) : String :=
  "schema=" ++ SEARCH_CACHE_SCHEMA_VERSION ++
  "|topic=" ++ normalizeTopic topic ++
  "|from=" ++ fromDate ++
  "|to=" ++ toDate ++
  "|days=" ++ natToString days ++
  "|source=" ++ source.str ++
  "|depth=" ++ depth ++
  "|model=" ++ modelSel.getD "unknown" ++
  "|prompt=" ++ promptVersion

/-- `getSourceCacheKey`, with the SHA-256/hex-truncate primitive `hashText`
abstracted as the function parameter `hash` (an external crypto builtin in
the source). -/
def getSourceCacheKey (hash : String → String) (topic fromDate toDate : String)
    (days : ℕ) (source : Source) (depth : String) (modelSel : Option String)
    (promptVersion : String) : String :=
  hash (sourceKeyData topic fromDate toDate days source depth modelSel promptVersion)

/-! ## JSON values

JSON documents exchanged with the cache and the HTTP layer are modelled by
a small value tree; a JS `Record<string, unknown>` is a list of fields. -/

/-- A JSON value. -/
inductive JVal where
  | null
  | bool (b : Bool)
  | num (q : ℚ)
  | str (s : String)
  | arr (xs : List JVal)
  | obj (fields : List (String × JVal))

/-- A JS `Record<string, unknown>` holding JSON data. -/
abbrev Rec := List (String × JVal)

/-- Field access `r[k]` on a record: first binding wins (JS object keys are
unique). -/
def recGet (r : Rec) (k : String) : Option JVal :=
  (r.find? (fun p => p.1 = k)).map Prod.snd

/-- JS `item && typeof item === 'object'`: a truthy value of type
`'object'` (arrays included, `null` excluded). -/
def JVal.isObjecty : JVal → Bool
  | .obj _ => true
  | .arr _ => true
  | _ => false

/-! ## Backoff policy and rate-limit hint parsing (`src/lib/http.ts`) -/

def DEFAULT_TIMEOUT : ℕ := 30000
def MAX_RETRIES : ℕ := 5
def RETRY_DELAY : ℕ := 1000
def MAX_RETRY_DELAY : ℕ := 30000
def MAX_JITTER_MS : ℕ := 1000

/-- `backoffDelay`: exponential backoff with bounded additive jitter.  The
`Math.floor(Math.random() * MAX_JITTER_MS)` sample is the argument
`jitter` (always `< 1000`). -/
def backoffDelay (attempt : ℕ) (jitter : ℕ) : ℕ :=
  min (RETRY_DELAY * 2 ^ attempt + jitter) MAX_RETRY_DELAY

/-- `(l.takeWhile isDigit, l.dropWhile isDigit)`. -/
def splitDigits (l : List Char) : List Char × List Char :=
  (l.takeWhile Char.isDigit, l.dropWhile Char.isDigit)

/-- Numeric value of a list of decimal digit characters. -/
def digitsVal (ds : List Char) : ℕ :=
  ds.foldl (fun acc c => 10 * acc + (c.toNat - 48)) 0

/-- The pure-number branch of `parseRateLimitResetMs`: a string matching
`^\d+(?:\.\d+)?$` is read as seconds and converted with
`Math.round(Number(v) * 1000)` (exact decimal arithmetic; rounding is
half-up). -/
def decimalSecondsToMs? (v : List Char) : Option ℕ :=
  let (ip, rest) := splitDigits v
  if ip = [] then none
  else
    match rest with
    | [] => some (digitsVal ip * 1000)
    | '.' :: frac =>
      let (fd, rest2) := splitDigits frac
      if fd = [] ∨ rest2 ≠ [] then none
      else
        let milli := digitsVal ((fd ++ ['0', '0', '0']).take 3)
        let roundUp : Bool := match fd.drop 3 with
          | d :: _ => decide ('5' ≤ d)
          | [] => false
        some (digitsVal ip * 1000 + milli + (if roundUp then 1 else 0))
    | _ => none

/-- Regex group `(?:(\d+)c)?` for a single-letter unit `c`: returns the
matched value (0 when the group is absent) and the unconsumed input. -/
def grabUnit (l : List Char) (c : Char) : ℕ × List Char :=
  let (ds, rest) := splitDigits l
  if ds ≠ [] ∧ rest.head? = some c then (digitsVal ds, rest.tail) else (0, l)

/-- Regex group `(?:(\d+)m(?!s))?`: minutes, with a negative lookahead so
that `…ms` is left for the milliseconds group. -/
def grabMinutes (l : List Char) : ℕ × List Char :=
  let (ds, rest) := splitDigits l
  if ds ≠ [] ∧ rest.head? = some 'm' ∧ rest.tail.head? ≠ some 's' then
    (digitsVal ds, rest.tail)
  else (0, l)

/-- Regex group `(?:(\d+)ms)?`. -/
def grabMillis (l : List Char) : ℕ × List Char :=
  let (ds, rest) := splitDigits l
  if ds ≠ [] ∧ rest.head? = some 'm' ∧ rest.tail.head? = some 's' then
    (digitsVal ds, rest.tail.tail)
  else (0, l)

/-- The compound-duration branch of `parseRateLimitResetMs`:
`^(?:(\d+)h)?(?:(\d+)m(?!s))?(?:(\d+)s)?(?:(\d+)ms)?$`, with
`totalMs > 0 ? totalMs : null`. -/
def compoundMs? (v : List Char) : Option ℕ :=
  let (h, r1) := grabUnit v 'h'
  let (m, r2) := grabMinutes r1
  let (s, r3) := grabUnit r2 's'
  let (ms, r4) := grabMillis r3
  if r4 = [] then
    let totalMs := (h * 60 * 60 + m * 60 + s) * 1000 + ms
    if totalMs > 0 then some totalMs else none
  else none

/-- `parseRateLimitResetMs`: parse `x-ratelimit-reset-*` durations like
`"1s"`, `"6m0s"`, `"1m30s"`, `"250ms"`; `null` for sentinels such as
`"-1"` and `"0"`. -/
def parseRateLimitResetMs (value : Option String) : Option ℕ :=
  match value with
  | none => none
  | some s =>
    if s = "" then none
    else
      let v := (trimChars s.data).map Char.toLower
      if v = [] ∨ v = "-1".data ∨ v = "0".data ∨ v = "0s".data ∨ v = "0ms".data then
        none
      else
        match decimalSecondsToMs? v with
        | some n => some n
        | none => compoundMs? v

/-- `parseRetryAfterMs`: a `Retry-After` header is either a non-negative
number of seconds or an HTTP date.  `Number(...)` and `Date.parse` are JS
runtime builtins, passed in as `jsNum` (`none` encodes `NaN`/non-finite)
and `dateParse` (`none` encodes an unparseable date). -/
def parseRetryAfterMs (jsNum : String → Option ℚ) (dateParse : String → Option ℤ)
    (nowMs : ℤ) (value : Option String) : Option ℕ :=
  match value with
  | none => none
  | some s =>
    if s = "" then none
    else
      let v : String := ⟨trimChars s.data⟩
      if v = "" then none
      else
        match jsNum v with
        | some q =>
          if 0 ≤ q then some (round (q * 1000)).toNat
          else
            match dateParse v with
            | none => none
            | some dateMs => some (max 0 (dateMs - nowMs)).toNat
        | none =>
          match dateParse v with
          | none => none
          | some dateMs => some (max 0 (dateMs - nowMs)).toNat

/-- The three response headers consulted on a 429. -/
structure HeadersM where
  retryAfter : Option String
  resetRequests : Option String
  resetTokens : Option String

/-- The provider hint: `Math.max(retryAfterMs ?? 0, resetRequestsMs ?? 0,
resetTokensMs ?? 0)`. -/
def rateLimitHintMs (jsNum : String → Option ℚ) (dateParse : String → Option ℤ)
    (nowMs : ℤ) (h : HeadersM) : ℕ :=
  max ((parseRetryAfterMs jsNum dateParse nowMs h.retryAfter).getD 0)
    (max ((parseRateLimitResetMs h.resetRequests).getD 0)
      ((parseRateLimitResetMs h.resetTokens).getD 0))

/-- `getRateLimitDelayMs`: the effective 429 wait. -/
def getRateLimitDelayMs (jsNum : String → Option ℚ) (dateParse : String → Option ℤ)
    (nowMs : ℤ) (jitter attempt : ℕ) (h : HeadersM) : ℕ :=
  min MAX_RETRY_DELAY
    (max (backoffDelay attempt jitter) (rateLimitHintMs jsNum dateParse nowMs h))

/-! ## Rate-limit error metadata and 429 classification
(`parseErrorMeta` / `isRetryableRateLimit`, `src/lib/http.ts:91-108` and
`163-199`)

`JSON.parse` is the runtime primitive `jsonParse`; everything else is
transcribed concretely. -/

/-- `typeof v === 'string' ? v : null` on an optional record field. -/
def strOf : Option JVal → Option String
  | some (.str s) => some s
  | _ => none

/-- The error metadata record `{ code, type, message }` (`type` is a Lean
keyword, so the field is named `etype`). -/
structure ErrMeta where
  code : Option String
  etype : Option String
  message : Option String
deriving DecidableEq

/-- `parseErrorMeta(body)`: a falsy (`null` or empty) or unparseable body
gives all-null metadata; otherwise take the parsed body's `error` field —
`(parsed.error as Record | undefined) ?? {}`, so any value without
properties (non-object, including the nullish ones replaced by `{}`)
contributes no fields — and keep each of `code` / `type` / `message` when
it is a string. -/
def parseErrorMeta (jsonParse : String → Option Rec) (body : Option String) :
    ErrMeta :=
  match body with
  | none => ⟨none, none, none⟩
  | some s =>
    if s = "" then ⟨none, none, none⟩
    else
      match jsonParse s with
      | none => ⟨none, none, none⟩
      | some parsed =>
        let errFields : Rec :=
          match recGet parsed "error" with
          | some (.obj o) => o
          | _ => []
        ⟨strOf (recGet errFields "code"), strOf (recGet errFields "type"),
          strOf (recGet errFields "message")⟩

/-- Char-list `startsWith`. -/
def isPrefixChars : List Char → List Char → Bool
  | [], _ => true
  | _ :: _, [] => false
  | a :: as, b :: bs => a == b && isPrefixChars as bs

/-- JS `hay.includes(sub)` on char lists: `sub` occurs contiguously in the
second argument. -/
def containsSub (sub : List Char) : List Char → Bool
  | [] => sub.isEmpty
  | c :: rest => isPrefixChars sub (c :: rest) || containsSub sub rest

/-- `NON_RETRYABLE_RATE_LIMIT_CODES` (`http.ts:163-167`). -/
def NON_RETRYABLE_RATE_LIMIT_CODES : List String :=
  ["insufficient_quota", "billing_hard_limit_reached", "account_deactivated"]

/-- The `nonRetryableSignals` list local to `isRetryableRateLimit`. -/
def nonRetryableSignals : List String :=
  ["insufficient_quota", "billing_hard_limit_reached", "quota exceeded",
    "billing", "payment required"]

/-- `isRetryableRateLimit(body)` (`http.ts:170-199`): a 429 is a hard
quota/billing failure when the parsed error code or type is a
non-retryable code, or when any of the lower-cased code, type, message or
raw body contains a non-retryable signal substring; every other 429
(including null, empty and malformed bodies) is retryable. -/
def isRetryableRateLimit (jsonParse : String → Option Rec) (body : Option String) :
    Bool :=
  let meta := parseErrorMeta jsonParse body
  let code := (meta.code.map strLower).getD ""
  let etype := (meta.etype.map strLower).getD ""
  let msg := (meta.message.map strLower).getD ""
  let bodyLower := (body.map strLower).getD ""
  if NON_RETRYABLE_RATE_LIMIT_CODES.contains code ||
      NON_RETRYABLE_RATE_LIMIT_CODES.contains etype then false
  else
    !(nonRetryableSignals.any fun signal =>
      containsSub signal.data code.data || containsSub signal.data etype.data ||
        containsSub signal.data msg.data || containsSub signal.data bodyLower.data)

/-- The `ratelimitResetMs` option of a raised `RateLimitError`:
`parseRateLimitResetMs(headers.get('x-ratelimit-reset-requests')) ??
parseRateLimitResetMs(headers.get('x-ratelimit-reset-tokens'))`. -/
def resetHintMs (h : HeadersM) : Option ℕ :=
  match parseRateLimitResetMs h.resetRequests with
  | some x => some x
  | none => parseRateLimitResetMs h.resetTokens

/-! ## The resilient request executor (`request`, `src/lib/http.ts:251-383`)

One logical call with a bounded attempt loop.  The network is an
environment `env : ℕ → FetchOut` giving the outcome of each attempt's
`fetch`; `JSON.parse` is the runtime primitive `parse`, whose failure
value carries the thrown `SyntaxError`'s message. -/

/-- What one `fetch` attempt produced: a connection-level failure (network
error or timeout abort, with the thrown error's constructor name and
message) or a response with status, status text, body text, rate-limit
headers and `x-request-id`. -/
inductive FetchOut where
  | netErr (name msg : String)
  | resp (status : ℕ) (statusText : String) (body : String) (headers : HeadersM)
      (requestId : Option String)

/-- The typed errors `request` can raise: `HTTPError` and `RateLimitError`
with their observable fields (`method` and `url` are the fixed call
arguments and carry no per-attempt information, so they are omitted). -/
inductive ReqErr where
  | httpError (msg : String) (statusCode : Option ℕ) (body : Option String)
      (requestId : Option String) (errorCode : Option String)
      (errorType : Option String)
  | rateLimitError (msg : String) (retryable : Bool) (retriesAttempted : ℕ)
      (retryAfterMs : ℕ) (ratelimitResetMs : Option ℕ) (body : String)
      (requestId : Option String) (errorCode : Option String)
      (errorType : Option String)
deriving DecidableEq

/-- Observable outcome of one `request` call: the returned value or raised
error, the number of attempts performed, and the waits slept between
attempts (in order). -/
structure ReqOut where
  result : Except ReqErr Rec
  attemptsUsed : ℕ
  waits : List ℕ

/-- External runtime primitives used by the request loop: `JSON.parse`
(`.error m` encodes a thrown `SyntaxError` with message `m`), `Number`,
`Date.parse`, the clock, and the per-attempt `Math.random` jitter
sample. -/
structure ReqPrims where
  parse : String → Except String Rec
  jsNum : String → Option ℚ
  dateParse : String → Option ℤ
  nowMs : ℤ
  jitter : ℕ → ℕ

/-- `JSON.parse` as used inside `parseErrorMeta`, whose `catch` discards
the error. -/
def ReqPrims.jsonParse (P : ReqPrims) (s : String) : Option Rec :=
  (P.parse s).toOption

/-- The body of `request`'s `for` loop, by recursion on the remaining
attempts `left` (so `attempt = retries - left` and the final attempt is
`left = 1`).  In the retryable-429 wait, `err.retry_after_ms ??
backoffDelay(attempt)` is `delayMs`: the error was just constructed with
`retryAfterMs: delayMs`, so the `??` fallback is dead on this path. -/
def requestGo (P : ReqPrims) (env : ℕ → FetchOut) :
    ℕ → ℕ → Option ReqErr → List ℕ → ReqOut
  | attempt, 0, lastErr, waits =>
    ⟨.error (lastErr.getD
        (.httpError "Request failed with no error details" none none none none none)),
      attempt, waits.reverse⟩
  | attempt, left + 1, lastErr, waits =>
    let isFinal := left = 0
    match env attempt with
    | .netErr name msg =>
      let e : ReqErr :=
        .httpError ("Connection error: " ++ name ++ ": " ++ msg) none none none none none
      if isFinal then ⟨.error e, attempt + 1, waits.reverse⟩
      else requestGo P env (attempt + 1) left (some e)
        (backoffDelay attempt (P.jitter attempt) :: waits)
    | .resp status statusText body headers requestId =>
      if 200 ≤ status ∧ status ≤ 299 then
        if body = "" then ⟨.ok [], attempt + 1, waits.reverse⟩
        else
          match P.parse body with
          | .ok r => ⟨.ok r, attempt + 1, waits.reverse⟩
          | .error m =>
            ⟨.error (.httpError ("Invalid JSON response: " ++ m)
                none none none none none),
              attempt + 1, waits.reverse⟩
      else
        let meta := parseErrorMeta P.jsonParse (some body)
        if status = 429 then
          let retryable := isRetryableRateLimit P.jsonParse (some body)
          let delayMs := getRateLimitDelayMs P.jsNum P.dateParse P.nowMs
            (P.jitter attempt) attempt headers
          let e : ReqErr := .rateLimitError
            (if retryable then "HTTP 429: rate limited"
              else "HTTP 429: non-retryable quota/billing limit")
            retryable (attempt + 1) delayMs (resetHintMs headers) body requestId
            meta.code meta.etype
          if ¬retryable then ⟨.error e, attempt + 1, waits.reverse⟩
          else if isFinal then ⟨.error e, attempt + 1, waits.reverse⟩
          else requestGo P env (attempt + 1) left (some e)
            (min MAX_RETRY_DELAY delayMs :: waits)
        else
          let e : ReqErr := .httpError
            ("HTTP " ++ natToString status ++ ": " ++ statusText)
            (some status) (some body) requestId meta.code meta.etype
          if 400 ≤ status ∧ status < 500 then ⟨.error e, attempt + 1, waits.reverse⟩
          else if isFinal then ⟨.error e, attempt + 1, waits.reverse⟩
          else requestGo P env (attempt + 1) left (some e)
            (backoffDelay attempt (P.jitter attempt) :: waits)

/-- `request(method, url, { retries })`: run the attempt loop from attempt
0 with the full budget. -/
def requestM (P : ReqPrims) (retries : ℕ) (env : ℕ → FetchOut) : ReqOut :=
  requestGo P env 0 retries none []

/-! ## Cache store (`src/lib/ui.ts:656-752`)

The cache directory is a map from paths to files; a file has text content
and a filesystem modification time in milliseconds.  `JSON.parse` /
`JSON.stringify` are runtime primitives passed as `parse` / `stringify`. -/

/-- A file on disk: content plus `stat.mtimeMs`. -/
structure CFile where
  content : String
  mtimeMs : ℚ
deriving DecidableEq

/-- The cache directory's state. -/
def FS : Type := String → Option CFile

/-- Point update of the filesystem. -/
def fsSet (fs : FS) (p : String) (v : Option CFile) : FS :=
  fun q => if q = p then v else fs q

/-- `renameSync(src, dst)`: atomic whole-file move. -/
def renameFs (fs : FS) (src dst : String) : FS :=
  fsSet (fsSet fs dst (fs src)) src none

/-- `getCachePath`: `join(CACHE_DIR, cacheKey + '.json')`. -/
def getCachePath (dir key : String) : String :=
  dir ++ "/" ++ key ++ ".json"

/-- The unique temp-file name `saveCache` writes before renaming:
`` `${cachePath}.tmp.${pid}.${Date.now()}.${random}` `` (the interpolated
`process.pid`, timestamp and random token arrive as strings). -/
def tmpCachePath (dir key pidS timeS randS : String) : String :=
  getCachePath dir key ++ ".tmp." ++ pidS ++ "." ++ timeS ++ "." ++ randS

/-- `isCacheValid`: the file exists and `(Date.now() - mtimeMs) / (1000 *
60 * 60) < ttlHours`. -/
def isCacheValid (fs : FS) (nowMs : ℚ) (path : String) (ttlHours : ℚ) : Bool :=
  match fs path with
  | none => false
  | some f => decide ((nowMs - f.mtimeMs) / (1000 * 60 * 60) < ttlHours)

/-- `readCache`: `JSON.parse(readFileSync(path))`, `null` on any error
(missing file or malformed contents). -/
def readCache (parse : String → Option Rec) (fs : FS) (path : String) : Option Rec :=
  match fs path with
  | none => none
  | some f => parse f.content

/-- `loadCache(cacheKey, ttlHours)`. -/
def loadCache (parse : String → Option Rec) (fs : FS) (nowMs : ℚ)
    (dir key : String) (ttlHours : ℚ) : Option Rec :=
  let cachePath := getCachePath dir key
  if isCacheValid fs nowMs cachePath ttlHours then readCache parse fs cachePath
  else none

/-- `getCacheAgeHours`. -/
def getCacheAgeHours (fs : FS) (nowMs : ℚ) (path : String) : Option ℚ :=
  match fs path with
  | none => none
  | some f => some ((nowMs - f.mtimeMs) / (1000 * 60 * 60))

/-- `loadCacheWithAge(cacheKey, ttlHours)`: `[data, ageHours]`, or
`[null, null]` on a miss. -/
def loadCacheWithAge (parse : String → Option Rec) (fs : FS) (nowMs : ℚ)
    (dir key : String) (ttlHours : ℚ) : Option Rec × Option ℚ :=
  let cachePath := getCachePath dir key
  if isCacheValid fs nowMs cachePath ttlHours then
    let age := getCacheAgeHours fs nowMs cachePath
    match readCache parse fs cachePath with
    | some d => (some d, age)
    | none => (none, none)
  else (none, none)

/-- `loadStaleCacheWithAge(cacheKey)` = `loadCacheWithAge(cacheKey,
getStaleSearchTTL())`; the configured stale TTL is the parameter
`staleTtlHours`. -/
def loadStaleCacheWithAge (parse : String → Option Rec) (fs : FS) (nowMs : ℚ)
    (dir key : String) (staleTtlHours : ℚ) : Option Rec × Option ℚ :=
  loadCacheWithAge parse fs nowMs dir key staleTtlHours

/-- Where `saveCache`'s try block can fail: nowhere (`ok`); in
`writeFileSync` (`failWrite`); in `renameSync`, with the temp file then
removed by the catch block (`failRename`) or left behind when the cleanup
itself fails (`failRenameNoCleanup`); or the process dies between the
temp-file write and the rename (`interrupted`). -/
inductive SaveFailure where
  | ok
  | failWrite
  | failRename
  | failRenameNoCleanup
  | interrupted
deriving DecidableEq

/-- `saveCache(cacheKey, data)` under an injected failure `mode`: write a
uniquely named temp file in the cache directory, then atomically rename it
over the final path; on any failure the error is swallowed and the temp
file removed best-effort. -/
def saveCacheF (stringify : Rec → String) (fs : FS) (dir key : String) (data : Rec)
    (nowMs : ℚ) (pidS timeS randS : String) (mode : SaveFailure) : FS :=
  let cachePath := getCachePath dir key
  let tmp := tmpCachePath dir key pidS timeS randS
  let written := fsSet fs tmp (some ⟨stringify data, nowMs⟩)
  match mode with
  | .ok => renameFs written tmp cachePath
  | .failWrite => fsSet fs tmp none
  | .failRename => fsSet written tmp none
  | .failRenameNoCleanup => written
  | .interrupted => written

/-- `saveCache` on the success path. -/
def saveCache (stringify : Rec → String) (fs : FS) (dir key : String) (data : Rec)
    (nowMs : ℚ) (pidS timeS randS : String) : FS :=
  saveCacheF stringify fs dir key data nowMs pidS timeS randS .ok

/-! ## Lock manager (`acquireCacheLock`, `src/lib/ui.ts:754-793`)

The lock file is `some mtime` when it exists.  Other processes may
interfere between loop iterations; each iteration first applies one
environment action (create/remove the lock, or make `openSync` fail with a
non-`EEXIST` error such as `EACCES`), then runs the loop body. -/

def LOCK_WAIT_MS : ℤ := 5000
def LOCK_POLL_MS : ℤ := 100
def LOCK_STALE_MS : ℤ := 60000

/-- Interference applied before one iteration's `openSync`. -/
inductive LockEnvAct where
  | quiet
  | setLock (t : ℤ)
  | clearLock
  | openErr

/-- Result of one loop iteration: return a boolean, or go around again
with the new lock state and clock. -/
inductive LockStepRes where
  | done (ok : Bool) (nowMs : ℤ) (lock : Option ℤ)
  | retry (lock : Option ℤ) (nowMs : ℤ)

/-- One iteration of `acquireCacheLock`'s `for (;;)` loop: exclusive-create
the lock file; on a non-`EEXIST` error return `false`; on `EEXIST` reclaim
a stale lock and retry immediately, give up at the deadline, or poll after
`LOCK_POLL_MS`. -/
def lockStep (lock : Option ℤ) (openFail : Bool) (nowMs deadline : ℤ) : LockStepRes :=
  if openFail then .done false nowMs lock
  else
    match lock with
    | none => .done true nowMs (some nowMs)
    | some t =>
      if nowMs - t > LOCK_STALE_MS then .retry none nowMs
      else if nowMs ≥ deadline then .done false nowMs (some t)
      else .retry (some t) (nowMs + LOCK_POLL_MS)

/-- Observable outcome of `acquireCacheLock`: its boolean result, the
clock when it returned, and the final lock-file state. -/
structure AcquireRes where
  ok : Bool
  nowMs : ℤ
  lock : Option ℤ
deriving DecidableEq

/-- The loop once the interference script is exhausted: no other process
touches the lock, so a free (or stale, after one reclaim) lock is
acquired, and a fresh lock is polled until the deadline (or until it turns
stale). -/
def acquireQuiet (lock : Option ℤ) (nowMs deadline : ℤ) : AcquireRes :=
  match lock with
  | none => ⟨true, nowMs, some nowMs⟩
  | some t =>
    if nowMs - t > LOCK_STALE_MS then ⟨true, nowMs, some nowMs⟩
    else if h : nowMs ≥ deadline then ⟨false, nowMs, some t⟩
    else acquireQuiet (some t) (nowMs + LOCK_POLL_MS) deadline
termination_by (deadline - nowMs).toNat
decreasing_by
  simp only [not_le] at h
  simp only [LOCK_POLL_MS]
  omega

/-- Environment action semantics: the lock state seen by this iteration's
`openSync`, and whether that call fails with a non-`EEXIST` error. -/
def applyLockEnv (e : LockEnvAct) (lock : Option ℤ) : Option ℤ × Bool :=
  match e with
  | .quiet => (lock, false)
  | .setLock t => (some t, false)
  | .clearLock => (none, false)
  | .openErr => (lock, true)

/-- Run `acquireCacheLock`'s loop against an interference script. -/
def acquireRun : List LockEnvAct → Option ℤ → ℤ → ℤ → AcquireRes
  | [], lock, nowMs, deadline => acquireQuiet lock nowMs deadline
  | e :: rest, lock, nowMs, deadline =>
    let (lock', openFail) := applyLockEnv e lock
    match lockStep lock' openFail nowMs deadline with
    | .done ok n l => ⟨ok, n, l⟩
    | .retry l n => acquireRun rest l n deadline

/-- `acquireCacheLock(cacheKey, waitMs)`: the deadline is `Date.now() +
Math.max(0, waitMs)`. -/
def acquireCacheLock (script : List LockEnvAct) (lock : Option ℤ)
    (nowMs waitMs : ℤ) : AcquireRes :=
  acquireRun script lock nowMs (nowMs + max 0 waitMs)

/-! ## The cache-aware fetch orchestrator (`searchRedditTask`,
`src/cli.ts:232-387`)

A single task invocation, with the provider call's outcome supplied by the
environment.  `searchXTask` is structurally identical up to provider
strings. -/

mutual

/-- JS value equality (`SameValueZero`, as used by `Set.has`) on JSON
values. -/
def jvalBeq : JVal → JVal → Bool
  | .null, .null => true
  | .bool a, .bool b => a == b
  | .num a, .num b => a == b
  | .str a, .str b => a == b
  | .arr xs, .arr ys => jvalListBeq xs ys
  | .obj fs, .obj gs => jvalFieldsBeq fs gs
  | _, _ => false

def jvalListBeq : List JVal → List JVal → Bool
  | [], [] => true
  | x :: xs, y :: ys => jvalBeq x y && jvalListBeq xs ys
  | _, _ => false

def jvalFieldsBeq : List (String × JVal) → List (String × JVal) → Bool
  | [], [] => true
  | (k, x) :: xs, (l, y) :: ys => k == l && jvalBeq x y && jvalFieldsBeq xs ys
  | _, _ => false

end

/-- Equality on `Option JVal` (JS `undefined` compares equal to itself in
a `Set`). -/
def optJValBeq : Option JVal → Option JVal → Bool
  | none, none => true
  | some a, some b => jvalBeq a b
  | _, _ => false

/-- Property access `value.url` on an arbitrary JS value: a field lookup
on objects, `undefined` otherwise. -/
def jGet (j : JVal) (k : String) : Option JVal :=
  match j with
  | .obj o => recGet o k
  | _ => none

/-- The payload persisted per search cache record. -/
structure CachedSearchPayload where
  items : List JVal
  raw : Option JVal

/-- `parseCachedSearchPayload` (`src/cli.ts:216-230`): `items` must be an
array (truthy objects kept — arrays included); `raw` is kept when it is a
truthy object. -/
def parseCachedSearchPayload (data : Option Rec) : Option CachedSearchPayload :=
  match data with
  | none => none
  | some d =>
    match recGet d "items" with
    | some (.arr xs) =>
      some
        { items := xs.filter JVal.isObjecty,
          raw :=
            match recGet d "raw" with
            | some v => if v.isObjecty then some v else none
            | none => none }
    | _ => none

/-- `SearchTaskResult` (`src/cli.ts:201-209`). -/
structure SearchTaskResult where
  items : List JVal
  raw : Option JVal
  error : Option String
  fromCache : Bool
  cacheAgeHours : Option ℚ
  rateLimited : Bool
  usedStaleCache : Bool

/-- What the provider call (`openaiReddit.searchReddit`) did: returned a
parsed JSON record, threw a `RateLimitError` (with its `retryable` flag,
`retries_attempted` count and `String(e)` rendering), or threw some other
error. -/
inductive LiveOutcome where
  | success (raw : Rec)
  | rateLimitFail (retryable : Bool) (retriesAttempted : ℕ) (asString : String)
  | otherFail (asString : String)

/-- Environment of one task invocation: the lock-acquisition outcome and
the outcomes of the main and quick-retry provider calls. -/
structure TaskEnv where
  lockAcquired : Bool
  live : LiveOutcome
  retryLive : LiveOutcome

/-- External primitives used by the task. -/
structure TaskPrims where
  parse : String → Option Rec
  stringify : Rec → String
  parseResp : Rec → List JVal
  extractCore : String → String
  hash : String → String
  fixture : Rec

/-- Observable outcome of one task invocation. -/
structure TaskOut where
  result : SearchTaskResult
  fs : FS
  liveCalls : ℕ
  releasedLock : Bool

/-- Steps (3)-(5) of the task: the provider call inside `try`, the
`RateLimitError` handling with stale-cache fallback, lock release in
`finally`, the low-result quick retry, and the write-through. -/
def searchTaskLivePhase (P : TaskPrims) (fs0 : FS) (nowMs : ℚ) (dir cacheKey : String)
    (topic : String) (staleTtl : ℚ) (mock skipRead skipWrite : Bool)
    (lockAcquired : Bool) (env : TaskEnv) (pidS timeS randS : String) : TaskOut :=
  let mainCalls : ℕ := if mock then 0 else 1
  let outcome := if mock then .success P.fixture else env.live
  match outcome with
  | .rateLimitFail retryable n msg =>
    let rawRec : Rec := [("error", .str msg)]
    let error := if retryable then "Rate limited after " ++ natToString n ++ " retries"
      else "OpenAI quota/billing limit reached (non-retryable 429)"
    let staleHit :=
      if retryable ∧ ¬skipRead then
        parseCachedSearchPayload
          (loadStaleCacheWithAge P.parse fs0 nowMs dir cacheKey staleTtl).1
      else none
    match staleHit with
    | some payload =>
      ⟨⟨payload.items, payload.raw, none, true,
          (loadStaleCacheWithAge P.parse fs0 nowMs dir cacheKey staleTtl).2,
          true, true⟩,
        fs0, mainCalls, lockAcquired⟩
    | none =>
      let items := P.parseResp rawRec
      ⟨⟨items, some (.obj rawRec), some error, false, none, true, false⟩,
        fs0, mainCalls, lockAcquired⟩
  | .otherFail msg =>
    let rawRec : Rec := [("error", .str msg)]
    let error := "API error: " ++ msg
    let items := P.parseResp rawRec
    ⟨⟨items, some (.obj rawRec), some error, false, none, false, false⟩,
      fs0, mainCalls, lockAcquired⟩
  | .success rawRec =>
    let items0 := P.parseResp rawRec
    let core := P.extractCore topic
    let doRetry := items0.length < 5 ∧ ¬mock ∧ strLower core ≠ strLower topic
    let (items, retryCalls) :=
      if doRetry then
        match env.retryLive with
        | .success retryRaw =>
          let retryItems := P.parseResp retryRaw
          let existingUrls := items0.map (fun i => jGet i "url")
          (items0 ++
              retryItems.filter (fun it => ¬ existingUrls.any (optJValBeq (jGet it "url"))),
            1)
        | _ => (items0, 1)
      else (items0, 0)
    let doWrite := ¬mock ∧ ¬skipWrite ∧ items.length > 0
    let fs1 :=
      if doWrite then
        saveCache P.stringify fs0 dir cacheKey
          [("items", .arr items), ("raw", .obj rawRec)] nowMs pidS timeS randS
      else fs0
    ⟨⟨items, some (.obj rawRec), none, false, none, false, false⟩,
      fs1, mainCalls + retryCalls, lockAcquired⟩

/-- `searchRedditTask`: derive the key, try the fresh cache, try the lock
(re-checking the fresh cache when acquisition fails), then run the live
phase. -/
def searchRedditTaskM (P : TaskPrims) (fs0 : FS) (nowMs : ℚ) (dir : String)
    (topic fromDate toDate : String) (days : ℕ) (depth : String)
    (modelSel : Option String) (promptVersion : String)
    (searchTtl staleTtl : ℚ) (mock skipRead skipWrite : Bool)
    (env : TaskEnv) (pidS timeS randS : String) : TaskOut :=
  let cacheKey := getSourceCacheKey P.hash topic fromDate toDate days .reddit depth
    modelSel promptVersion
  let freshHit :=
    if ¬mock ∧ ¬skipRead then
      match parseCachedSearchPayload
          (loadCacheWithAge P.parse fs0 nowMs dir cacheKey searchTtl).1 with
      | some payload =>
        some (payload, (loadCacheWithAge P.parse fs0 nowMs dir cacheKey searchTtl).2)
      | none => none
    else none
  match freshHit with
  | some (payload, age) =>
    ⟨⟨payload.items, payload.raw, none, true, age, false, false⟩, fs0, 0, false⟩
  | none =>
    let lockAcquired := if ¬mock ∧ ¬skipRead then env.lockAcquired else false
    let recheckHit :=
      if (¬mock ∧ ¬skipRead) ∧ ¬lockAcquired then
        match parseCachedSearchPayload
            (loadCacheWithAge P.parse fs0 nowMs dir cacheKey searchTtl).1 with
        | some payload =>
          some (payload, (loadCacheWithAge P.parse fs0 nowMs dir cacheKey searchTtl).2)
        | none => none
      else none
    match recheckHit with
    | some (payload, age) =>
      ⟨⟨payload.items, payload.raw, none, true, age, false, false⟩, fs0, 0, false⟩
    | none =>
      searchTaskLivePhase P fs0 nowMs dir cacheKey topic staleTtl mock skipRead
        skipWrite lockAcquired env pidS timeS randS

/-! ## Stampede model: N concurrent `searchRedditTask` invocations on one
key

Interleaving semantics for the concurrency scenario of the spec's
stampede-control property: every process runs `searchRedditTask` for the
same key with cache reads and writes enabled, the fresh cache initially
empty, and a deterministic live-call stub that sleeps `callDur` ms and
returns payload `p` (parsing to a full result list, so the low-result
quick retry does not fire).  Each scheduler step runs one atomic program
step of one process; clock-advancing steps are the lock poll
(`LOCK_POLL_MS = 100`) and the live call itself. -/

/-- Program counter of one process walking `searchRedditTask`:
initial fresh-cache read → lock acquisition loop → (on timeout) re-check →
live call → `finally` release → write-through → done. -/
inductive SPC where
  | start
  | tryLock
  | recheck
  | calling
  | releasing
  | saving
  | doneLive
  | doneCache
deriving DecidableEq

/-- One process's state. -/
structure SProc where
  pc : SPC
  held : Bool
  called : Bool
  deadline : ℕ
  startT : Option ℕ
  result : Option ℕ
deriving DecidableEq

/-- Shared state: the cache record for the key, the lock file (with its
mtime), the clock, and the processes. -/
structure SState (n : ℕ) where
  cache : Option ℕ
  lock : Option ℕ
  nowMs : ℕ
  procs : Fin n → SProc

/-- A process that has not called `fetch` yet. -/
def initProc : SProc := ⟨.start, false, false, 0, none, none⟩

/-- Initial state of the scenario: fresh cache empty, no lock held. -/
def initState (n : ℕ) : SState n := ⟨none, none, 0, fun _ => initProc⟩

/-- Has this process returned? -/
def SPC.finished : SPC → Bool
  | .doneLive => true
  | .doneCache => true
  | _ => false

/-- One atomic step of process `i` (`LOCK_WAIT_MS = 5000`,
`LOCK_STALE_MS = 60000`, `LOCK_POLL_MS = 100` as in the source). -/
def stampedeStep {n : ℕ} (p callDur : ℕ) (s : SState n) (i : Fin n) : SState n :=
  let pr := s.procs i
  match pr.pc with
  | .start =>
    match s.cache with
    | some v =>
      let pr1 := { pr with pc := SPC.doneCache, startT := some s.nowMs, result := some v }
      { s with procs := Function.update s.procs i pr1 }
    | none =>
      let startT := some s.nowMs
      let pr1 := { pr with pc := SPC.tryLock, startT := startT, deadline := s.nowMs + 5000 }
      { s with procs := Function.update s.procs i pr1 }
  | .tryLock =>
    match s.lock with
    | none =>
      let pr1 := { pr with pc := SPC.calling, held := true }
      { s with lock := some s.nowMs, procs := Function.update s.procs i pr1 }
    | some t =>
      if s.nowMs - t > 60000 then { s with lock := none }
      else if s.nowMs ≥ pr.deadline then
        let pr1 := { pr with pc := SPC.recheck }
        { s with procs := Function.update s.procs i pr1 }
      else { s with nowMs := s.nowMs + 100 }
  | .recheck =>
    match s.cache with
    | some v =>
      let pr1 := { pr with pc := SPC.doneCache, result := some v }
      { s with procs := Function.update s.procs i pr1 }
    | none =>
      let pr1 := { pr with pc := SPC.calling }
      { s with procs := Function.update s.procs i pr1 }
  | .calling =>
    let pr1 := { pr with pc := SPC.releasing, called := true }
    { s with nowMs := s.nowMs + callDur, procs := Function.update s.procs i pr1 }
  | .releasing =>
    if pr.held then
      let pr1 := { pr with pc := SPC.saving, held := false }
      { s with lock := none, procs := Function.update s.procs i pr1 }
    else
      let pr1 := { pr with pc := SPC.saving }
      { s with procs := Function.update s.procs i pr1 }
  | .saving =>
    let pr1 := { pr with pc := SPC.doneLive, result := some p }
    { s with cache := some p, procs := Function.update s.procs i pr1 }
  | .doneLive => s
  | .doneCache => s

/-- Run a schedule (a list of process indices, each executing one step). -/
def stampedeRun {n : ℕ} (p callDur : ℕ) (s : SState n) : List (Fin n) → SState n
  | [] => s
  | i :: rest => stampedeRun p callDur (stampedeStep p callDur s i) rest

/-- Number of live-call-stub invocations so far (the stub counts a call
when it completes). -/
def liveCalls {n : ℕ} (s : SState n) : ℕ :=
  (Finset.univ.filter (fun i => (s.procs i).called)).card


/-! ## Statement vocabulary for the request executor's state machine

These definitions transcribe the spec's per-attempt classification so the
executor can be proved to implement it. -/

/-- Attempts the executor retries (per the code): connection-level
failures, retryable 429s, and non-2xx statuses outside the fatal
`4xx \ {429}` band. -/
def retryableShape (P : ReqPrims) (o : FetchOut) : Prop :=
  match o with
  | .netErr _ _ => True
  | .resp s _ body _ _ =>
    ¬(200 ≤ s ∧ s ≤ 299) ∧
      ((s = 429 ∧ isRetryableRateLimit P.jsonParse (some body) = true) ∨
        (s ≠ 429 ∧ ¬(400 ≤ s ∧ s < 500)))

/-- The typed error attempt `k` records for outcome `o` (the value of
`lastError` after that attempt, and the error raised if `o` is fatal or
final). -/
def errOfAt (P : ReqPrims) (k : ℕ) (o : FetchOut) : ReqErr :=
  match o with
  | .netErr name msg =>
    .httpError ("Connection error: " ++ name ++ ": " ++ msg) none none none none none
  | .resp s statusText body headers requestId =>
    if s = 429 then
      .rateLimitError
        (if isRetryableRateLimit P.jsonParse (some body) then "HTTP 429: rate limited"
          else "HTTP 429: non-retryable quota/billing limit")
        (isRetryableRateLimit P.jsonParse (some body)) (k + 1)
        (getRateLimitDelayMs P.jsNum P.dateParse P.nowMs (P.jitter k) k headers)
        (resetHintMs headers) body requestId
        (parseErrorMeta P.jsonParse (some body)).code
        (parseErrorMeta P.jsonParse (some body)).etype
    else
      .httpError ("HTTP " ++ natToString s ++ ": " ++ statusText) (some s)
        (some body) requestId (parseErrorMeta P.jsonParse (some body)).code
        (parseErrorMeta P.jsonParse (some body)).etype

/-- The wait slept after a retried attempt `k`: the resolved 429 delay for
rate limits, the computed backoff otherwise. -/
def waitOfAt (P : ReqPrims) (k : ℕ) (o : FetchOut) : ℕ :=
  match o with
  | .netErr _ _ => backoffDelay k (P.jitter k)
  | .resp s _ _ headers _ =>
    if s = 429 then
      min MAX_RETRY_DELAY
        (getRateLimitDelayMs P.jsNum P.dateParse P.nowMs (P.jitter k) k headers)
    else backoffDelay k (P.jitter k)

/-- The chronological wait list produced by retrying attempts
`0, …, j-1`. -/
def waitsUpTo (P : ReqPrims) (env : ℕ → FetchOut) (j : ℕ) : List ℕ :=
  (List.range j).map (fun k => waitOfAt P k (env k))

/-! ## Concrete instantiations used by witnesses and counterexamples -/

/-- Primitives whose provider-response parser yields no items (a valid,
empty search result). -/
def noItemsPrims : TaskPrims :=
  ⟨fun _ => none, fun _ => "s", fun _ => [], fun t => t, fun _ => "K", []⟩

/-- A successful provider call. -/
def successEnv : TaskEnv :=
  ⟨true, .success [("data", JVal.null)], .otherFail "unused"⟩

/-- Primitives with a one-string JSON codec for the cached payload
`{"items": [{}], "raw": null}` and a constant hash. -/
def staleCachePrims : TaskPrims :=
  ⟨fun s => if s = "enc" then
      some [("items", JVal.arr [JVal.obj []]), ("raw", JVal.null)]
    else none,
    fun _ => "enc", fun _ => [], fun t => t, fun _ => "K", []⟩

/-- A cache directory holding one record (written at t = 0) under the
derived key. -/
def staleFs : FS :=
  fun q => if q = getCachePath "d" "K" then some ⟨"enc", 0⟩ else none

/-- A provider call that throws `RateLimitError`. -/
def rlEnv (retryable : Bool) : TaskEnv :=
  ⟨true, .rateLimitFail retryable 5 "RateLimitError: HTTP 429", .otherFail "unused"⟩

/-- Invariant of the stampede model: the cache only ever holds the live
payload `p`; a process past its live call is marked `called`; a finished
process returned `p`; and once the cache is populated or anyone has
finished, at least one live call has completed. -/
def StampedeInv (p : ℕ) {n : ℕ} (s : SState n) : Prop :=
  (s.cache = none ∨ s.cache = some p) ∧
  (∀ i : Fin n, ((s.procs i).pc = SPC.releasing ∨ (s.procs i).pc = SPC.saving ∨
    (s.procs i).pc = SPC.doneLive) → (s.procs i).called = true) ∧
  (∀ i : Fin n, (s.procs i).pc.finished = true → (s.procs i).result = some p) ∧
  ((s.cache ≠ none ∨ ∃ i : Fin n, (s.procs i).pc.finished = true) →
    1 ≤ liveCalls s)

/-! # Theorems -/

/-! ## Helper lemmas -/

lemma fsSet_same (fs : FS) (p : String) (v : Option CFile) : fsSet fs p v p = v := by
  simp [fsSet]

lemma fsSet_other (fs : FS) (p q : String) (v : Option CFile) (h : q ≠ p) :
    fsSet fs p v q = fs q := by
  simp [fsSet, h]

lemma dot_split : ∀ (a c b d : List Char), '.' ∉ a → '.' ∉ c →
    a ++ '.' :: b = c ++ '.' :: d → a = c ∧ b = d := by
  intro a
  induction a with
  | nil =>
    intro c b d _ hc h
    cases c with
    | nil => simpa using h
    | cons y ys =>
      exfalso
      simp only [List.nil_append, List.cons_append, List.cons.injEq] at h
      exact hc (h.1 ▸ List.mem_cons_self y ys)
  | cons x xs ih =>
    intro c b d ha hc h
    cases c with
    | nil =>
      exfalso
      simp only [List.cons_append, List.nil_append, List.cons.injEq] at h
      exact ha (h.1 ▸ List.mem_cons_self x xs)
    | cons y ys =>
      simp only [List.cons_append, List.cons.injEq] at h
      obtain ⟨hxy, hrest⟩ := h
      have ha' : '.' ∉ xs := fun hmem => ha (List.mem_cons_of_mem x hmem)
      have hc' : '.' ∉ ys := fun hmem => hc (List.mem_cons_of_mem y hmem)
      obtain ⟨h1, h2⟩ := ih ys b d ha' hc' hrest
      exact ⟨by rw [hxy, h1], h2⟩

lemma digitsLE_eq_digits : ∀ (f n : ℕ), n ≤ f → digitsLE f n = Nat.digits 10 n := by
  intro f
  induction f with
  | zero =>
    intro n hn
    interval_cases n
    simp [digitsLE]
  | succ f ih =>
    intro n hn
    match n with
    | 0 => simp [digitsLE]
    | m + 1 =>
      rw [digitsLE, Nat.digits_def' (by norm_num : (1 : ℕ) < 10) (Nat.succ_pos m)]
      congr 1
      apply ih
      have : (m + 1) / 10 < m + 1 := Nat.div_lt_self (Nat.succ_pos m) (by norm_num)
      omega

lemma digitChar_inj_lt : ∀ a, a < 10 → ∀ b, b < 10 →
    Nat.digitChar a = Nat.digitChar b → a = b := by decide

lemma map_digitChar_inj : ∀ (l1 l2 : List ℕ), (∀ d ∈ l1, d < 10) → (∀ d ∈ l2, d < 10) →
    l1.map Nat.digitChar = l2.map Nat.digitChar → l1 = l2 := by
  intro l1
  induction l1 with
  | nil =>
    intro l2 _ _ h
    cases l2 with
    | nil => rfl
    | cons y ys => simp at h
  | cons x xs ih =>
    intro l2 h1 h2 h
    cases l2 with
    | nil => simp at h
    | cons y ys =>
      simp only [List.map_cons, List.cons.injEq] at h
      obtain ⟨hxy, hrest⟩ := h
      have hx := h1 x (List.mem_cons_self x xs)
      have hy := h2 y (List.mem_cons_self y ys)
      have hxy' : x = y := digitChar_inj_lt x hx y hy hxy
      rw [hxy',
        ih ys (fun d hd => h1 d (List.mem_cons_of_mem x hd))
          (fun d hd => h2 d (List.mem_cons_of_mem y hd)) hrest]

lemma natToString_nonzero_data (m : ℕ) (hm : m ≠ 0) :
    (natToString m).data = ((Nat.digits 10 m).map Nat.digitChar).reverse := by
  rw [natToString, if_neg hm, ← digitsLE_eq_digits m m le_rfl]

lemma natToString_injective : Function.Injective natToString := by
  intro a b h
  by_cases ha : a = 0 <;> by_cases hb : b = 0
  · rw [ha, hb]
  · exfalso
    have hd := congrArg String.data h
    rw [natToString_nonzero_data b hb, ha] at hd
    have hd' : ((Nat.digits 10 b).map Nat.digitChar).reverse = ['0'] := by
      rw [← hd]; rfl
    rw [List.reverse_eq_iff] at hd'
    have : Nat.digits 10 b = [0] := by
      apply map_digitChar_inj
      · exact fun d hd2 => Nat.digits_lt_base (by norm_num) hd2
      · intro d hd2; simp at hd2; omega
      · simpa using hd'
    have hb0 : b = 0 := by
      have h2 := Nat.ofDigits_digits 10 b
      rw [‹Nat.digits 10 b = [0]›] at h2
      simpa [Nat.ofDigits] using h2.symm
    exact hb hb0
  · exfalso
    have hd := congrArg String.data h
    rw [natToString_nonzero_data a ha, hb] at hd
    have hd' : ((Nat.digits 10 a).map Nat.digitChar).reverse = ['0'] := by
      rw [hd]; rfl
    rw [List.reverse_eq_iff] at hd'
    have : Nat.digits 10 a = [0] := by
      apply map_digitChar_inj
      · exact fun d hd2 => Nat.digits_lt_base (by norm_num) hd2
      · intro d hd2; simp at hd2; omega
      · simpa using hd'
    have ha0 : a = 0 := by
      have h2 := Nat.ofDigits_digits 10 a
      rw [‹Nat.digits 10 a = [0]›] at h2
      simpa [Nat.ofDigits] using h2.symm
    exact ha ha0
  · have hd := congrArg String.data h
    rw [natToString_nonzero_data a ha, natToString_nonzero_data b hb] at hd
    have hmap := List.reverse_injective hd
    have hdig : Nat.digits 10 a = Nat.digits 10 b := by
      apply map_digitChar_inj
      · exact fun d hd2 => Nat.digits_lt_base (by norm_num) hd2
      · exact fun d hd2 => Nat.digits_lt_base (by norm_num) hd2
      · exact hmap
    exact Nat.digits_inj_iff.mp hdig


lemma source_str_injective : Function.Injective Source.str := by
  intro a b h
  cases a <;> cases b <;> first
    | rfl
    | exact absurd h (by decide)

lemma sourceKeyData_inj_topic {t1 t2 f toD dp p : String} {d : ℕ} {s : Source}
    {m : Option String}
    (h : sourceKeyData t1 f toD d s dp m p = sourceKeyData t2 f toD d s dp m p) :
    normalizeTopic t1 = normalizeTopic t2 := by
  have hd := congrArg String.data h
  simp only [sourceKeyData, SEARCH_CACHE_SCHEMA_VERSION, String.data_append,
    List.append_assoc] at hd
  iterate 3 replace hd := List.append_cancel_left hd
  exact String.ext (List.append_cancel_right hd)

lemma sourceKeyData_inj_from {t f1 f2 toD dp p : String} {d : ℕ} {s : Source}
    {m : Option String}
    (h : sourceKeyData t f1 toD d s dp m p = sourceKeyData t f2 toD d s dp m p) :
    f1 = f2 := by
  have hd := congrArg String.data h
  simp only [sourceKeyData, SEARCH_CACHE_SCHEMA_VERSION, String.data_append,
    List.append_assoc] at hd
  iterate 5 replace hd := List.append_cancel_left hd
  exact String.ext (List.append_cancel_right hd)

lemma sourceKeyData_inj_to {t f to1 to2 dp p : String} {d : ℕ} {s : Source}
    {m : Option String}
    (h : sourceKeyData t f to1 d s dp m p = sourceKeyData t f to2 d s dp m p) :
    to1 = to2 := by
  have hd := congrArg String.data h
  simp only [sourceKeyData, SEARCH_CACHE_SCHEMA_VERSION, String.data_append,
    List.append_assoc] at hd
  iterate 7 replace hd := List.append_cancel_left hd
  exact String.ext (List.append_cancel_right hd)

lemma sourceKeyData_inj_days {t f toD dp p : String} {d1 d2 : ℕ} {s : Source}
    {m : Option String}
    (h : sourceKeyData t f toD d1 s dp m p = sourceKeyData t f toD d2 s dp m p) :
    d1 = d2 := by
  have hd := congrArg String.data h
  simp only [sourceKeyData, SEARCH_CACHE_SCHEMA_VERSION, String.data_append,
    List.append_assoc] at hd
  iterate 9 replace hd := List.append_cancel_left hd
  exact natToString_injective (String.ext (List.append_cancel_right hd))

lemma sourceKeyData_inj_source {t f toD dp p : String} {d : ℕ} {s1 s2 : Source}
    {m : Option String}
    (h : sourceKeyData t f toD d s1 dp m p = sourceKeyData t f toD d s2 dp m p) :
    s1 = s2 := by
  have hd := congrArg String.data h
  simp only [sourceKeyData, SEARCH_CACHE_SCHEMA_VERSION, String.data_append,
    List.append_assoc] at hd
  iterate 11 replace hd := List.append_cancel_left hd
  exact source_str_injective (String.ext (List.append_cancel_right hd))

lemma sourceKeyData_inj_depth {t f toD dp1 dp2 p : String} {d : ℕ} {s : Source}
    {m : Option String}
    (h : sourceKeyData t f toD d s dp1 m p = sourceKeyData t f toD d s dp2 m p) :
    dp1 = dp2 := by
  have hd := congrArg String.data h
  simp only [sourceKeyData, SEARCH_CACHE_SCHEMA_VERSION, String.data_append,
    List.append_assoc] at hd
  iterate 13 replace hd := List.append_cancel_left hd
  exact String.ext (List.append_cancel_right hd)

lemma sourceKeyData_inj_model {t f toD dp p : String} {d : ℕ} {s : Source}
    {m1 m2 : Option String}
    (h : sourceKeyData t f toD d s dp m1 p = sourceKeyData t f toD d s dp m2 p) :
    m1.getD "unknown" = m2.getD "unknown" := by
  have hd := congrArg String.data h
  simp only [sourceKeyData, SEARCH_CACHE_SCHEMA_VERSION, String.data_append,
    List.append_assoc] at hd
  iterate 15 replace hd := List.append_cancel_left hd
  exact String.ext (List.append_cancel_right hd)

lemma sourceKeyData_inj_prompt {t f toD dp p1 p2 : String} {d : ℕ} {s : Source}
    {m : Option String}
    (h : sourceKeyData t f toD d s dp m p1 = sourceKeyData t f toD d s dp m p2) :
    p1 = p2 := by
  have hd := congrArg String.data h
  simp only [sourceKeyData, SEARCH_CACHE_SCHEMA_VERSION, String.data_append,
    List.append_assoc] at hd
  iterate 17 replace hd := List.append_cancel_left hd
  exact String.ext hd


/-! ## C8 — cache key determinism (`getSourceCacheKey`) -/

/-- C8 (counterexample): the claim "for all pairs of tuples differing in
exactly one dimension (…, model, …) the keys differ" is false: a `null`
model and the literal string `"unknown"` differ in the model dimension but
produce the identical key-data string, hence the identical key (shown here
with the hash primitive instantiated to the identity; the pre-hash strings
being equal, the real truncated-SHA-256 keys are equal as well). -/
theorem claim8_cex :
    (none : Option String) ≠ some "unknown" ∧
      getSourceCacheKey (fun s => s) "topic" "2025-01-01" "2025-01-31" 30 .reddit
          "quick" none "v1" =
        getSourceCacheKey (fun s => s) "topic" "2025-01-01" "2025-01-31" 30 .reddit
          "quick" (some "unknown") "v1" := by
  exact ⟨by simp, rfl⟩

/-- C8 (amended): `getSourceCacheKey` is deterministic, topics equal after
trim/lower-case/whitespace-collapse yield the identical key, and — with
the hash primitive injective (the idealisation of truncated SHA-256) —
tuples differing in exactly one dimension yield different keys, where the
topic dimension is compared after normalization and a `null` model is
identified with the literal `"unknown"`. -/
theorem claim8_key_determinism (hash : String → String) :
    (∀ (t1 t2 f toD : String) (d : ℕ) (s : Source) (dp : String)
        (m : Option String) (p : String),
        normalizeTopic t1 = normalizeTopic t2 →
        getSourceCacheKey hash t1 f toD d s dp m p =
          getSourceCacheKey hash t2 f toD d s dp m p) ∧
    (Function.Injective hash →
      (∀ (t1 t2 f toD : String) (d : ℕ) (s : Source) (dp : String)
          (m : Option String) (p : String),
          normalizeTopic t1 ≠ normalizeTopic t2 →
          getSourceCacheKey hash t1 f toD d s dp m p ≠
            getSourceCacheKey hash t2 f toD d s dp m p) ∧
      (∀ (t f1 f2 toD : String) (d : ℕ) (s : Source) (dp : String)
          (m : Option String) (p : String), f1 ≠ f2 →
          getSourceCacheKey hash t f1 toD d s dp m p ≠
            getSourceCacheKey hash t f2 toD d s dp m p) ∧
      (∀ (t f toD1 toD2 : String) (d : ℕ) (s : Source) (dp : String)
          (m : Option String) (p : String), toD1 ≠ toD2 →
          getSourceCacheKey hash t f toD1 d s dp m p ≠
            getSourceCacheKey hash t f toD2 d s dp m p) ∧
      (∀ (t f toD : String) (d1 d2 : ℕ) (s : Source) (dp : String)
          (m : Option String) (p : String), d1 ≠ d2 →
          getSourceCacheKey hash t f toD d1 s dp m p ≠
            getSourceCacheKey hash t f toD d2 s dp m p) ∧
      (∀ (t f toD : String) (d : ℕ) (s1 s2 : Source) (dp : String)
          (m : Option String) (p : String), s1 ≠ s2 →
          getSourceCacheKey hash t f toD d s1 dp m p ≠
            getSourceCacheKey hash t f toD d s2 dp m p) ∧
      (∀ (t f toD : String) (d : ℕ) (s : Source) (dp1 dp2 : String)
          (m : Option String) (p : String), dp1 ≠ dp2 →
          getSourceCacheKey hash t f toD d s dp1 m p ≠
            getSourceCacheKey hash t f toD d s dp2 m p) ∧
      (∀ (t f toD : String) (d : ℕ) (s : Source) (dp : String)
          (m1 m2 : Option String) (p : String),
          m1.getD "unknown" ≠ m2.getD "unknown" →
          getSourceCacheKey hash t f toD d s dp m1 p ≠
            getSourceCacheKey hash t f toD d s dp m2 p) ∧
      (∀ (t f toD : String) (d : ℕ) (s : Source) (dp : String)
          (m : Option String) (p1 p2 : String), p1 ≠ p2 →
          getSourceCacheKey hash t f toD d s dp m p1 ≠
            getSourceCacheKey hash t f toD d s dp m p2)) := by
  constructor
  · intro t1 t2 f toD d s dp m p hnorm
    unfold getSourceCacheKey sourceKeyData
    rw [hnorm]
  · intro hinj
    refine ⟨?_, ?_, ?_, ?_, ?_, ?_, ?_, ?_⟩
    · intro t1 t2 f toD d s dp m p hne hk
      exact hne (sourceKeyData_inj_topic (hinj hk))
    · intro t f1 f2 toD d s dp m p hne hk
      exact hne (sourceKeyData_inj_from (hinj hk))
    · intro t f toD1 toD2 d s dp m p hne hk
      exact hne (sourceKeyData_inj_to (hinj hk))
    · intro t f toD d1 d2 s dp m p hne hk
      exact hne (sourceKeyData_inj_days (hinj hk))
    · intro t f toD d s1 s2 dp m p hne hk
      exact hne (sourceKeyData_inj_source (hinj hk))
    · intro t f toD d s dp1 dp2 m p hne hk
      exact hne (sourceKeyData_inj_depth (hinj hk))
    · intro t f toD d s dp m1 m2 p hne hk
      exact hne (sourceKeyData_inj_model (hinj hk))
    · intro t f toD d s dp m p1 p2 hne hk
      exact hne (sourceKeyData_inj_prompt (hinj hk))

/-- C8 (witness): the amended theorem applied at concrete inputs — a
case/whitespace topic variant collides; dates one day apart give distinct
keys under the identity hash. -/
theorem claim8_witness :
    getSourceCacheKey (fun s => s) "  Bun   1.3 " "2025-01-01" "2025-01-31" 30
        .reddit "quick" (some "gpt-5") "v1" =
      getSourceCacheKey (fun s => s) "bun 1.3" "2025-01-01" "2025-01-31" 30
        .reddit "quick" (some "gpt-5") "v1" ∧
    getSourceCacheKey (fun s => s) "bun" "2025-01-01" "2025-01-31" 30 .reddit
        "quick" (some "gpt-5") "v1" ≠
      getSourceCacheKey (fun s => s) "bun" "2025-01-02" "2025-01-31" 30 .reddit
        "quick" (some "gpt-5") "v1" := by
  constructor
  · exact (claim8_key_determinism (fun s => s)).1 "  Bun   1.3 " "bun 1.3"
      "2025-01-01" "2025-01-31" 30 .reddit "quick" (some "gpt-5") "v1" (by decide)
  · exact ((claim8_key_determinism (fun s => s)).2 (fun a b hab => hab)).2.1 "bun"
      "2025-01-01" "2025-01-02" "2025-01-31" 30 .reddit "quick" (some "gpt-5") "v1"
      (by decide)

/-! ## C6 — effective 429 wait (`getRateLimitDelayMs`) -/

/-- C6: for every attempt and headers, the effective 429 wait equals
`min(30000, max(backoffDelay(n), hint))`, with `backoffDelay(n) =
min(1000·2^n + jitter, 30000)` (jitter in `[0, 1000)`) and `hint` the max
of the parsed `Retry-After` and `x-ratelimit-reset-*` values; the wait
never exceeds the ceiling, a hint not exceeding the ceiling is never
shortened, and the compound duration forms parse as claimed. -/
theorem claim6_resolved_delay (jsNum : String → Option ℚ)
    (dateParse : String → Option ℤ) (nowMs : ℤ) (attempt jitter : ℕ)
    (hjit : jitter < MAX_JITTER_MS) (h : HeadersM) :
    getRateLimitDelayMs jsNum dateParse nowMs jitter attempt h =
      min 30000 (max (backoffDelay attempt jitter)
        (rateLimitHintMs jsNum dateParse nowMs h)) ∧
    backoffDelay attempt jitter = min (1000 * 2 ^ attempt + jitter) 30000 ∧
    rateLimitHintMs jsNum dateParse nowMs h =
      max ((parseRetryAfterMs jsNum dateParse nowMs h.retryAfter).getD 0)
        (max ((parseRateLimitResetMs h.resetRequests).getD 0)
          ((parseRateLimitResetMs h.resetTokens).getD 0)) ∧
    getRateLimitDelayMs jsNum dateParse nowMs jitter attempt h ≤ 30000 ∧
    (rateLimitHintMs jsNum dateParse nowMs h ≤ 30000 →
      rateLimitHintMs jsNum dateParse nowMs h ≤
        getRateLimitDelayMs jsNum dateParse nowMs jitter attempt h) ∧
    parseRateLimitResetMs (some "1h2m3s") = some 3723000 ∧
    parseRateLimitResetMs (some "6m0s") = some 360000 ∧
    parseRateLimitResetMs (some "250ms") = some 250 := by
  refine ⟨rfl, rfl, rfl, min_le_left _ _, ?_, by decide, by decide, by decide⟩
  intro hhint
  exact le_min hhint (le_max_right _ _)

/-- C6 (witness): the theorem applied at attempt 0, jitter 0, empty
headers. -/
theorem claim6_witness :
    0 < MAX_JITTER_MS ∧ parseRateLimitResetMs (some "250ms") = some 250 :=
  ⟨by decide,
    (claim6_resolved_delay (fun _ => none) (fun _ => none) 0 0 0 (by decide)
        ⟨none, none, none⟩).2.2.2.2.2.2.2⟩

/-! ## C7 / C10 — lock manager (`acquireCacheLock`) -/

lemma acquireQuiet_now_le_fuel : ∀ (fuel : ℕ) (lock : Option ℤ) (nowMs deadline : ℤ),
    (deadline - nowMs).toNat ≤ fuel →
    (acquireQuiet lock nowMs deadline).nowMs ≤ max nowMs (deadline + LOCK_POLL_MS) := by
  intro fuel
  induction fuel with
  | zero =>
    intro lock n d hfuel
    cases lock with
    | none => simp [acquireQuiet]
    | some t =>
      rw [acquireQuiet]
      split
      · exact le_max_left _ _
      · split
        · exact le_max_left _ _
        · rename_i hstale hlt
          exfalso
          simp only [ge_iff_le, not_le] at hlt
          omega
  | succ fuel ih =>
    intro lock n d hfuel
    cases lock with
    | none => simp [acquireQuiet]
    | some t =>
      rw [acquireQuiet]
      split
      · exact le_max_left _ _
      · split
        · exact le_max_left _ _
        · rename_i hstale hlt
          simp only [ge_iff_le, not_le] at hlt
          have step := ih (some t) (n + LOCK_POLL_MS) d
            (by simp only [LOCK_POLL_MS] at *; omega)
          have hcollapse : max (n + LOCK_POLL_MS) (d + LOCK_POLL_MS) =
              d + LOCK_POLL_MS := by
            apply max_eq_right
            omega
          rw [hcollapse] at step
          exact le_trans step (le_max_right _ _)

lemma acquireQuiet_now_le (lock : Option ℤ) (nowMs deadline : ℤ) :
    (acquireQuiet lock nowMs deadline).nowMs ≤ max nowMs (deadline + LOCK_POLL_MS) :=
  acquireQuiet_now_le_fuel (deadline - nowMs).toNat lock nowMs deadline le_rfl

lemma acquireRun_now_le : ∀ (script : List LockEnvAct) (lock : Option ℤ)
    (nowMs deadline : ℤ),
    (acquireRun script lock nowMs deadline).nowMs ≤ max nowMs (deadline + LOCK_POLL_MS) := by
  intro script
  induction script with
  | nil => exact fun lock n d => acquireQuiet_now_le lock n d
  | cons e rest ih =>
    intro lock n d
    rw [acquireRun]
    have poll_case : ∀ (t : ℤ), ¬(n - t > LOCK_STALE_MS) → ¬(n ≥ d) →
        (acquireRun rest (some t) (n + LOCK_POLL_MS) d).nowMs ≤
          max n (d + LOCK_POLL_MS) := by
      intro t hst hdl
      have step := ih (some t) (n + LOCK_POLL_MS) d
      have hcollapse : max (n + LOCK_POLL_MS) (d + LOCK_POLL_MS) =
          d + LOCK_POLL_MS := by
        apply max_eq_right
        simp only [ge_iff_le, not_le] at hdl
        omega
      rw [hcollapse] at step
      exact le_trans step (le_max_right _ _)
    rcases e with _ | t0 | _ | _
    · -- quiet
      simp only [applyLockEnv]
      cases lock with
      | none => simp [lockStep]
      | some t =>
        by_cases hst : n - t > LOCK_STALE_MS
        · simp only [lockStep, if_false, hst, if_true, Bool.false_eq_true]
          exact ih none n d
        · by_cases hdl : n ≥ d
          · simp [lockStep, hst, hdl]
          · simp only [lockStep, hst, hdl, if_false, if_true, Bool.false_eq_true]
            exact poll_case t hst hdl
    · -- setLock t0
      simp only [applyLockEnv]
      by_cases hst : n - t0 > LOCK_STALE_MS
      · simp only [lockStep, hst, if_true, if_false, Bool.false_eq_true]
        exact ih none n d
      · by_cases hdl : n ≥ d
        · simp [lockStep, hst, hdl]
        · simp only [lockStep, hst, hdl, if_false, if_true, Bool.false_eq_true]
          exact poll_case t0 hst hdl
    · -- clearLock
      simp [lockStep, applyLockEnv]
    · -- openErr
      simp [lockStep, applyLockEnv]

lemma acquireQuiet_timeout : ∀ (fuel : ℕ) (t nowMs deadline : ℤ),
    (deadline - nowMs).toNat ≤ fuel →
    deadline + LOCK_POLL_MS ≤ t + LOCK_STALE_MS →
    nowMs - t ≤ LOCK_STALE_MS →
    (acquireQuiet (some t) nowMs deadline).ok = false := by
  intro fuel
  induction fuel with
  | zero =>
    intro t n d hfuel hm hn
    rw [acquireQuiet]
    have h1 : ¬(n - t > LOCK_STALE_MS) := by omega
    have h2 : n ≥ d := by
      simp only [LOCK_POLL_MS, LOCK_STALE_MS] at *
      omega
    simp [h1, h2]
  | succ fuel ih =>
    intro t n d hfuel hm hn
    rw [acquireQuiet]
    have h1 : ¬(n - t > LOCK_STALE_MS) := by omega
    by_cases h2 : n ≥ d
    · simp [h1, h2]
    · have step := ih t (n + LOCK_POLL_MS) d
        (by simp only [LOCK_POLL_MS] at *; omega)
        hm
        (by simp only [LOCK_POLL_MS, LOCK_STALE_MS] at *; omega)
      simpa [h1, h2] using step

/-- C7: `acquireCacheLock` is a total function returning a boolean (never
throws); one loop iteration performs exclusive creation when the lock file
is absent, deletes a stale conflicting lock and retries immediately
(without advancing the clock), polls a fresh conflicting lock at the fixed
`LOCK_POLL_MS` interval while before the deadline, and gives up at the
deadline; the clock on return never exceeds `start + max(0, waitMs) +
LOCK_POLL_MS` under any interference (no unbounded wait); and with no
interference and a held fresh lock whose deadline stays within the stale
threshold, the call returns `false` once `maxWait` elapses. -/
theorem claim7_lock_acquisition (script : List LockEnvAct) (lock : Option ℤ)
    (nowMs waitMs deadline : ℤ) :
    (acquireCacheLock script lock nowMs waitMs).nowMs ≤
      nowMs + max 0 waitMs + LOCK_POLL_MS ∧
    lockStep none false nowMs deadline = .done true nowMs (some nowMs) ∧
    (∀ t, nowMs - t > LOCK_STALE_MS →
      lockStep (some t) false nowMs deadline = .retry none nowMs) ∧
    (∀ t, nowMs - t ≤ LOCK_STALE_MS → nowMs < deadline →
      lockStep (some t) false nowMs deadline = .retry (some t) (nowMs + LOCK_POLL_MS)) ∧
    (∀ t, nowMs - t ≤ LOCK_STALE_MS → nowMs ≥ deadline →
      lockStep (some t) false nowMs deadline = .done false nowMs (some t)) ∧
    (∀ t, nowMs + max 0 waitMs + LOCK_POLL_MS ≤ t + LOCK_STALE_MS →
      nowMs - t ≤ LOCK_STALE_MS →
      (acquireCacheLock [] (some t) nowMs waitMs).ok = false) := by
  refine ⟨?_, ?_, ?_, ?_, ?_, ?_⟩
  · have h := acquireRun_now_le script lock nowMs (nowMs + max 0 waitMs)
    have hcollapse : max nowMs (nowMs + max 0 waitMs + LOCK_POLL_MS) =
        nowMs + max 0 waitMs + LOCK_POLL_MS := by
      apply max_eq_right
      have h0 : (0 : ℤ) ≤ max 0 waitMs := le_max_left 0 waitMs
      simp only [LOCK_POLL_MS]
      omega
    rw [acquireCacheLock]
    rw [hcollapse] at h
    exact h
  · simp [lockStep]
  · intro t ht
    simp [lockStep, ht]
  · intro t ht hlt
    have hnge : ¬(nowMs ≥ deadline) := by omega
    have hnst : ¬(nowMs - t > LOCK_STALE_MS) := by omega
    simp [lockStep, hnst, hnge]
  · intro t ht hge
    have hnst : ¬(nowMs - t > LOCK_STALE_MS) := by omega
    simp [lockStep, hnst, hge]
  · intro t hm hn
    rw [acquireCacheLock]
    exact acquireQuiet_timeout (nowMs + max 0 waitMs - nowMs).toNat t nowMs
      (nowMs + max 0 waitMs) le_rfl hm hn

/-- C7 (witness): the theorem applied at a concrete held-lock scenario —
the lock file was created at t = 0 and the call starts at t = 0 with the
default 5000 ms wait, so acquisition times out with `false`. -/
theorem claim7_witness :
    (acquireCacheLock [] (some 0) 0 5000).ok = false :=
  (claim7_lock_acquisition [] (some 0) 0 5000 5000).2.2.2.2.2 0 (by decide) (by decide)

/-- C10: when `openSync` fails with any error other than `EEXIST` (for
example `EACCES` on an unwritable lock directory), `acquireCacheLock`
returns `false` immediately: the clock does not advance (no polling, no
waiting out `maxWait`), the lock state is untouched, no error escapes, and
the rest of the run never happens. -/
theorem claim10_open_error_returns_false (script : List LockEnvAct)
    (lock : Option ℤ) (nowMs waitMs : ℤ) :
    acquireCacheLock (.openErr :: script) lock nowMs waitMs =
      ⟨false, nowMs, lock⟩ := rfl

/-! ## C4 / C5 — cache store (`saveCache` / `loadCache`) -/

lemma tmp_ne_cachePath (dir key pidS timeS randS : String) :
    tmpCachePath dir key pidS timeS randS ≠ getCachePath dir key := by
  intro h
  have hd := congrArg (fun s => s.data.length) h
  simp [tmpCachePath, String.data_append] at hd

lemma saveCacheF_ok_final (stringify : Rec → String) (fs : FS) (dir key : String)
    (data : Rec) (nowMs : ℚ) (pidS timeS randS : String) :
    saveCacheF stringify fs dir key data nowMs pidS timeS randS .ok
      (getCachePath dir key) = some ⟨stringify data, nowMs⟩ := by
  have hne := tmp_ne_cachePath dir key pidS timeS randS
  simp only [saveCacheF, renameFs]
  rw [fsSet_other _ _ _ _ (Ne.symm hne), fsSet_same, fsSet_same]

lemma saveCacheF_fail_final (stringify : Rec → String) (fs : FS) (dir key : String)
    (data : Rec) (nowMs : ℚ) (pidS timeS randS : String) (mode : SaveFailure)
    (hmode : mode ≠ .ok) :
    saveCacheF stringify fs dir key data nowMs pidS timeS randS mode
      (getCachePath dir key) = fs (getCachePath dir key) := by
  have hne := Ne.symm (tmp_ne_cachePath dir key pidS timeS randS)
  cases mode with
  | ok => exact absurd rfl hmode
  | failWrite => simp only [saveCacheF]; rw [fsSet_other _ _ _ _ hne]
  | failRename =>
    simp only [saveCacheF]
    rw [fsSet_other _ _ _ _ hne, fsSet_other _ _ _ _ hne]
  | failRenameNoCleanup => simp only [saveCacheF]; rw [fsSet_other _ _ _ _ hne]
  | interrupted => simp only [saveCacheF]; rw [fsSet_other _ _ _ _ hne]

lemma saveCacheF_frame (stringify : Rec → String) (fs : FS) (dir key : String)
    (data : Rec) (nowMs : ℚ) (pidS timeS randS : String) (mode : SaveFailure)
    (q : String) (hq1 : q ≠ getCachePath dir key)
    (hq2 : q ≠ tmpCachePath dir key pidS timeS randS) :
    saveCacheF stringify fs dir key data nowMs pidS timeS randS mode q = fs q := by
  cases mode with
  | ok =>
    simp only [saveCacheF, renameFs]
    rw [fsSet_other _ _ _ _ hq2, fsSet_other _ _ _ _ hq1, fsSet_other _ _ _ _ hq2]
  | failWrite => simp only [saveCacheF]; rw [fsSet_other _ _ _ _ hq2]
  | failRename =>
    simp only [saveCacheF]
    rw [fsSet_other _ _ _ _ hq2, fsSet_other _ _ _ _ hq2]
  | failRenameNoCleanup => simp only [saveCacheF]; rw [fsSet_other _ _ _ _ hq2]
  | interrupted => simp only [saveCacheF]; rw [fsSet_other _ _ _ _ hq2]

/-- C4: `saveCache` never writes the final cache path in place — it writes
a uniquely named temp file (distinct from the final path; distinct
pid/timestamp/random components give distinct temp names) in the same
directory and atomically renames it; under every injected failure,
including interruption between the temp write and the rename, the record
at the final path is untouched; the success path installs exactly the
serialized record; no other path is touched; and the operation is a total
function — no error reaches the caller. -/
theorem claim4_atomic_save (stringify : Rec → String) (fs : FS) (dir key : String)
    (data : Rec) (nowMs : ℚ) (pidS timeS randS : String) :
    (∀ mode, mode ≠ SaveFailure.ok →
      saveCacheF stringify fs dir key data nowMs pidS timeS randS mode
        (getCachePath dir key) = fs (getCachePath dir key)) ∧
    tmpCachePath dir key pidS timeS randS ≠ getCachePath dir key ∧
    saveCacheF stringify fs dir key data nowMs pidS timeS randS .ok
      (getCachePath dir key) = some ⟨stringify data, nowMs⟩ ∧
    (∀ mode q, q ≠ getCachePath dir key →
      q ≠ tmpCachePath dir key pidS timeS randS →
      saveCacheF stringify fs dir key data nowMs pidS timeS randS mode q = fs q) ∧
    (∀ p2 t2 r2 : String, '.' ∉ pidS.data → '.' ∉ timeS.data → '.' ∉ p2.data →
      '.' ∉ t2.data → ¬(pidS = p2 ∧ timeS = t2 ∧ randS = r2) →
      tmpCachePath dir key pidS timeS randS ≠ tmpCachePath dir key p2 t2 r2) := by
  refine ⟨fun mode h => saveCacheF_fail_final stringify fs dir key data nowMs
      pidS timeS randS mode h,
    tmp_ne_cachePath dir key pidS timeS randS,
    saveCacheF_ok_final stringify fs dir key data nowMs pidS timeS randS,
    fun mode q h1 h2 => saveCacheF_frame stringify fs dir key data nowMs
      pidS timeS randS mode q h1 h2, ?_⟩
  intro p2 t2 r2 hp1 ht1 hp2 ht2 hne h
  apply hne
  have hd := congrArg String.data h
  simp only [tmpCachePath, getCachePath, String.data_append, List.append_assoc] at hd
  iterate 5 replace hd := List.append_cancel_left hd
  simp only [List.singleton_append] at hd
  obtain ⟨he1, hd2⟩ := dot_split pidS.data p2.data _ _ hp1 hp2 hd
  obtain ⟨he2, he3⟩ := dot_split timeS.data t2.data _ _ ht1 ht2 hd2
  exact ⟨String.ext he1, String.ext he2, String.ext he3⟩

/-- C4 (witness): the theorem at a concrete cache directory — an
interrupted write leaves the existing record intact, and temp names with
different pids are distinct. -/
theorem claim4_witness :
    saveCacheF (fun _ => "x") (fun _ => some ⟨"old", 0⟩) "cache" "k" [] 1
      "11" "22" "ab" .interrupted (getCachePath "cache" "k") =
      some ⟨"old", 0⟩ ∧
    tmpCachePath "cache" "k" "11" "22" "ab" ≠ tmpCachePath "cache" "k" "12" "22" "ab" := by
  have h := claim4_atomic_save (fun _ => "x") (fun _ => some ⟨"old", (0 : ℚ)⟩)
    "cache" "k" [] 1 "11" "22" "ab"
  refine ⟨h.1 .interrupted (by simp), h.2.2.2.2 "12" "22" "ab" ?_ ?_ ?_ ?_ ?_⟩
  · decide
  · decide
  · decide
  · decide
  · decide

/-- C5: a `saveCache` followed by `loadCache` within the TTL returns the
identical (deep-equal) record whenever the JSON codec round-trips it; and
`loadCache` returns `null` when the file is missing, when its age reaches
the TTL, or when its contents fail to parse — a malformed file behaves
exactly like a missing one, and the read is a total function (never
throws). -/
theorem claim5_round_trip (parse : String → Option Rec) (stringify : Rec → String)
    (fs : FS) (dir key : String) (v : Rec) (nowMs nowMs2 : ℚ) (ttl : ℚ)
    (pidS timeS randS : String) (hrt : parse (stringify v) = some v) :
    ((nowMs2 - nowMs) / (1000 * 60 * 60) < ttl →
      loadCache parse (saveCache stringify fs dir key v nowMs pidS timeS randS)
        nowMs2 dir key ttl = some v) ∧
    (fs (getCachePath dir key) = none →
      loadCache parse fs nowMs dir key ttl = none) ∧
    (∀ c m, fs (getCachePath dir key) = some ⟨c, m⟩ →
      ¬((nowMs - m) / (1000 * 60 * 60) < ttl) →
      loadCache parse fs nowMs dir key ttl = none) ∧
    (∀ c m, fs (getCachePath dir key) = some ⟨c, m⟩ → parse c = none →
      loadCache parse fs nowMs dir key ttl = none) := by
  refine ⟨?_, ?_, ?_, ?_⟩
  · intro hage
    have hfin := saveCacheF_ok_final stringify fs dir key v nowMs pidS timeS randS
    simp only [saveCache]
    simp [loadCache, isCacheValid, readCache, hfin, hage, hrt]
  · intro hnone
    simp [loadCache, isCacheValid, hnone]
  · intro c m hsome httl
    simp [loadCache, isCacheValid, hsome, httl]
  · intro c m hsome hparse
    simp [loadCache, isCacheValid, readCache, hsome, hparse]

/-- C5 (witness): round trip at age 0 against a one-record codec, plus the
missing-file and malformed-file behaviours at concrete inputs. -/
theorem claim5_witness :
    loadCache (fun s => if s = "enc" then some [("k", JVal.null)] else none)
      (saveCache (fun _ => "enc") (fun _ => none) "cache" "k" [("k", JVal.null)]
        0 "1" "2" "r") 0 "cache" "k" 1 = some [("k", JVal.null)] ∧
    loadCache (fun s => if s = "enc" then some [("k", JVal.null)] else none)
      (fun _ => none) 0 "cache" "k" 1 = none := by
  have h := claim5_round_trip
    (fun s => if s = "enc" then some [("k", JVal.null)] else none)
    (fun _ => "enc") (fun _ => none) "cache" "k" [("k", JVal.null)] 0 0 1 "1" "2" "r"
    (by simp)
  exact ⟨h.1 (by norm_num), h.2.1 rfl⟩

/-! ## C1 — stale-cache fallback on transient rate limit
(`searchRedditTask`) -/

/-- C1: in one logical fetch with a fresh-cache miss and cache reads
enabled, when the live call raises a retryable `RateLimitError` and a
stale record within the stale TTL parses, the task returns the stale
payload with stale provenance (`fromCache = true`, `rateLimited = true`,
`usedStaleCache = true`, the stale age attached) and no error; when the
`RateLimitError` is classified non-retryable, the quota/billing error
reaches the caller in the result's `error` field and the stale tier is
never consulted (`usedStaleCache = false`, no cached payload), whatever
the stale cache holds. -/
theorem claim1_stale_fallback (P : TaskPrims) (fs0 : FS) (nowMs : ℚ) (dir : String)
    (topic fromDate toDate : String) (days : ℕ) (depth : String)
    (modelSel : Option String) (promptVersion : String) (searchTtl staleTtl : ℚ)
    (skipWrite : Bool) (env : TaskEnv) (pidS timeS randS : String)
    (hmiss : parseCachedSearchPayload
      (loadCacheWithAge P.parse fs0 nowMs dir
        (getSourceCacheKey P.hash topic fromDate toDate days .reddit depth modelSel
          promptVersion) searchTtl).1 = none) :
    (∀ n msg pl,
      env.live = .rateLimitFail true n msg →
      parseCachedSearchPayload
        (loadStaleCacheWithAge P.parse fs0 nowMs dir
          (getSourceCacheKey P.hash topic fromDate toDate days .reddit depth modelSel
            promptVersion) staleTtl).1 = some pl →
      (searchRedditTaskM P fs0 nowMs dir topic fromDate toDate days depth modelSel
          promptVersion searchTtl staleTtl false false skipWrite env pidS timeS
          randS).result =
        ⟨pl.items, pl.raw, none, true,
          (loadStaleCacheWithAge P.parse fs0 nowMs dir
            (getSourceCacheKey P.hash topic fromDate toDate days .reddit depth modelSel
              promptVersion) staleTtl).2, true, true⟩) ∧
    (∀ n msg,
      env.live = .rateLimitFail false n msg →
      (searchRedditTaskM P fs0 nowMs dir topic fromDate toDate days depth modelSel
          promptVersion searchTtl staleTtl false false skipWrite env pidS timeS
          randS).result.error =
        some "OpenAI quota/billing limit reached (non-retryable 429)" ∧
      (searchRedditTaskM P fs0 nowMs dir topic fromDate toDate days depth modelSel
          promptVersion searchTtl staleTtl false false skipWrite env pidS timeS
          randS).result.usedStaleCache = false ∧
      (searchRedditTaskM P fs0 nowMs dir topic fromDate toDate days depth modelSel
          promptVersion searchTtl staleTtl false false skipWrite env pidS timeS
          randS).result.fromCache = false) := by
  constructor
  · intro n msg pl hlive hstale
    simp [searchRedditTaskM, searchTaskLivePhase, hmiss, hlive, hstale]
  · intro n msg hlive
    refine ⟨?_, ?_, ?_⟩ <;>
      simp [searchRedditTaskM, searchTaskLivePhase, hmiss, hlive]

/-- C1 (witness): the theorem at a concrete cache state — a record written
at t = 0 read at t = 0 with fresh TTL 0 (miss) and stale TTL 24 h (hit). -/
theorem claim1_witness :
    (searchRedditTaskM staleCachePrims staleFs 0 "d" "t" "f" "o" 30 "quick" none "v"
        0 24 false false false (rlEnv true) "1" "2" "r").result =
      ⟨[JVal.obj []], none, none, true, some 0, true, true⟩ ∧
    (searchRedditTaskM staleCachePrims staleFs 0 "d" "t" "f" "o" 30 "quick" none "v"
        0 24 false false false (rlEnv false) "1" "2" "r").result.error =
      some "OpenAI quota/billing limit reached (non-retryable 429)" := by
  have hmiss : parseCachedSearchPayload
      (loadCacheWithAge staleCachePrims.parse staleFs 0 "d"
        (getSourceCacheKey staleCachePrims.hash "t" "f" "o" 30 .reddit "quick" none "v")
        0).1 = none := by
    simp [loadCacheWithAge, isCacheValid, staleFs, staleCachePrims,
      getSourceCacheKey, parseCachedSearchPayload]
  have hstale : parseCachedSearchPayload
      (loadStaleCacheWithAge staleCachePrims.parse staleFs 0 "d"
        (getSourceCacheKey staleCachePrims.hash "t" "f" "o" 30 .reddit "quick" none "v")
        24).1 = some ⟨[JVal.obj []], none⟩ := by
    simp [loadStaleCacheWithAge, loadCacheWithAge, isCacheValid, readCache, staleFs,
      staleCachePrims, getSourceCacheKey, parseCachedSearchPayload, recGet,
      JVal.isObjecty]
  have hage : (loadStaleCacheWithAge staleCachePrims.parse staleFs 0 "d"
      (getSourceCacheKey staleCachePrims.hash "t" "f" "o" 30 .reddit "quick" none "v")
      24).2 = some 0 := by
    simp [loadStaleCacheWithAge, loadCacheWithAge, isCacheValid, readCache,
      getCacheAgeHours, staleFs, staleCachePrims, getSourceCacheKey]
  have h := claim1_stale_fallback staleCachePrims staleFs 0 "d" "t" "f" "o" 30 "quick"
    none "v" 0 24 false (rlEnv true) "1" "2" "r" hmiss
  have h2 := claim1_stale_fallback staleCachePrims staleFs 0 "d" "t" "f" "o" 30 "quick"
    none "v" 0 24 false (rlEnv false) "1" "2" "r" hmiss
  constructor
  · have := h.1 5 "RateLimitError: HTTP 429" ⟨[JVal.obj []], none⟩ rfl hstale
    rw [this, hage]
  · exact (h2.2 5 "RateLimitError: HTTP 429" rfl).1

/-! ## C9 — write-through on success (`searchRedditTask`) -/

/-- C9 (counterexample): the claim "after a live call that succeeds the
orchestrator writes the fetched payload through to the cache — unless the
caller disabled cache writes" is false when the successful payload parses
to zero items: with writes enabled (`skipWrite = false`) and a successful
live call, nothing is written (`items.length > 0` gates the write). -/
theorem claim9_cex :
    (searchRedditTaskM noItemsPrims (fun _ => none) 0 "d" "t" "f" "o" 30 "quick"
        none "v" 1 24 false true false successEnv "1" "2" "r").result.error =
      none ∧
    (searchRedditTaskM noItemsPrims (fun _ => none) 0 "d" "t" "f" "o" 30 "quick"
        none "v" 1 24 false true false successEnv "1" "2" "r").fs
        (getCachePath "d" "K") = none := by
  constructor
  · rfl
  · rfl

/-- C9 (amended): after a successful live call (fresh-cache miss, at least
five parsed items so the low-result quick retry does not fire), the task
writes the serialized `{items, raw}` record through to the cache under the
derived key and returns live provenance (`fromCache = false`, no error);
with `skipWrite` set, the filesystem is untouched; a success that parses
to zero items is also not written (see the counterexample). -/
theorem claim9_write_through (P : TaskPrims) (fs0 : FS) (nowMs : ℚ) (dir : String)
    (topic fromDate toDate : String) (days : ℕ) (depth : String)
    (modelSel : Option String) (promptVersion : String) (searchTtl staleTtl : ℚ)
    (env : TaskEnv) (pidS timeS randS : String) (rawRec : Rec)
    (hlive : env.live = .success rawRec)
    (hmiss : parseCachedSearchPayload
      (loadCacheWithAge P.parse fs0 nowMs dir
        (getSourceCacheKey P.hash topic fromDate toDate days .reddit depth modelSel
          promptVersion) searchTtl).1 = none)
    (h5 : 5 ≤ (P.parseResp rawRec).length) :
    (searchRedditTaskM P fs0 nowMs dir topic fromDate toDate days depth modelSel
        promptVersion searchTtl staleTtl false false false env pidS timeS
        randS).fs
      (getCachePath dir
        (getSourceCacheKey P.hash topic fromDate toDate days .reddit depth modelSel
          promptVersion)) =
      some ⟨P.stringify [("items", .arr (P.parseResp rawRec)), ("raw", .obj rawRec)],
        nowMs⟩ ∧
    (searchRedditTaskM P fs0 nowMs dir topic fromDate toDate days depth modelSel
        promptVersion searchTtl staleTtl false false false env pidS timeS
        randS).result.error = none ∧
    (searchRedditTaskM P fs0 nowMs dir topic fromDate toDate days depth modelSel
        promptVersion searchTtl staleTtl false false false env pidS timeS
        randS).result.fromCache = false ∧
    (searchRedditTaskM P fs0 nowMs dir topic fromDate toDate days depth modelSel
        promptVersion searchTtl staleTtl false false false env pidS timeS
        randS).result.usedStaleCache = false ∧
    (searchRedditTaskM P fs0 nowMs dir topic fromDate toDate days depth modelSel
        promptVersion searchTtl staleTtl false false true env pidS timeS
        randS).fs = fs0 := by
  have hn5 : ¬((P.parseResp rawRec).length < 5) := by omega
  have hpos : (P.parseResp rawRec).length > 0 := by omega
  have hok := saveCacheF_ok_final P.stringify fs0 dir
    (getSourceCacheKey P.hash topic fromDate toDate days .reddit depth modelSel
      promptVersion)
    [("items", .arr (P.parseResp rawRec)), ("raw", .obj rawRec)] nowMs pidS timeS randS
  refine ⟨?_, ?_, ?_, ?_, ?_⟩ <;>
    simp [searchRedditTaskM, searchTaskLivePhase, hmiss, hlive, hn5, hpos,
      saveCache, hok]

/-- C9 (witness): the amended theorem at a five-item payload against an
empty cache directory. -/
theorem claim9_witness :
    (searchRedditTaskM
        ⟨fun _ => none, fun _ => "enc", fun _ => [JVal.obj [], JVal.obj [], JVal.obj [],
          JVal.obj [], JVal.obj []], fun t => t, fun _ => "K", []⟩
        (fun _ => none) 0 "d" "t" "f" "o" 30 "quick" none "v" 1 24 false false false
        successEnv "1" "2" "r").fs (getCachePath "d" "K") =
      some ⟨"enc", 0⟩ := by
  have h := claim9_write_through
    ⟨fun _ => none, fun _ => "enc", fun _ => [JVal.obj [], JVal.obj [], JVal.obj [],
      JVal.obj [], JVal.obj []], fun t => t, fun _ => "K", []⟩
    (fun _ => none) 0 "d" "t" "f" "o" 30 "quick" none "v" 1 24 successEnv "1" "2" "r"
    [("data", JVal.null)] rfl (by simp [loadCacheWithAge, isCacheValid,
      parseCachedSearchPayload]) (by simp)
  exact h.1

/-! ## C2 — the resilient request executor (`request`) -/

lemma requestGo_retry_step (P : ReqPrims) (env : ℕ → FetchOut) (attempt l : ℕ)
    (lastErr : Option ReqErr) (waits : List ℕ)
    (h0 : retryableShape P (env attempt)) (hl : l ≠ 0) :
    requestGo P env attempt (l + 1) lastErr waits =
      requestGo P env (attempt + 1) l (some (errOfAt P attempt (env attempt)))
        (waitOfAt P attempt (env attempt) :: waits) := by
  cases ho : env attempt with
  | netErr name msg =>
    rw [ho] at h0
    simp [requestGo, ho, hl, errOfAt, waitOfAt]
  | resp s st body headers rid =>
    rw [ho] at h0
    simp only [retryableShape] at h0
    obtain ⟨hnot2xx, hclass⟩ := h0
    rcases hclass with ⟨h429, hcl⟩ | ⟨h429, hfatal⟩
    · subst h429
      simp [requestGo, ho, hnot2xx, hcl, hl, errOfAt, waitOfAt]
    · have hfatal' : ¬(400 ≤ s ∧ s < 500) := hfatal
      simp [requestGo, ho, hnot2xx, h429, hfatal', hl, errOfAt, waitOfAt]

lemma requestGo_final_step (P : ReqPrims) (env : ℕ → FetchOut) (attempt : ℕ)
    (lastErr : Option ReqErr) (waits : List ℕ)
    (h0 : retryableShape P (env attempt)) :
    requestGo P env attempt 1 lastErr waits =
      ⟨.error (errOfAt P attempt (env attempt)), attempt + 1, waits.reverse⟩ := by
  cases ho : env attempt with
  | netErr name msg =>
    rw [ho] at h0
    simp [requestGo, ho, errOfAt]
  | resp s st body headers rid =>
    rw [ho] at h0
    simp only [retryableShape] at h0
    obtain ⟨hnot2xx, hclass⟩ := h0
    rcases hclass with ⟨h429, hcl⟩ | ⟨h429, hfatal⟩
    · subst h429
      simp [requestGo, ho, hnot2xx, hcl, errOfAt]
    · have hfatal' : ¬(400 ≤ s ∧ s < 500) := hfatal
      simp [requestGo, ho, hnot2xx, h429, hfatal', errOfAt]

lemma requestGo_skip (P : ReqPrims) (env : ℕ → FetchOut) :
    ∀ (j attempt left : ℕ) (lastErr : Option ReqErr) (waits : List ℕ),
    j < left →
    (∀ k, k < j → retryableShape P (env (attempt + k))) →
    ∃ le, requestGo P env attempt left lastErr waits =
      requestGo P env (attempt + j) (left - j) le
        (((List.range j).map
            (fun k => waitOfAt P (attempt + k) (env (attempt + k)))).reverse ++ waits) := by
  intro j
  induction j with
  | zero =>
    intro attempt left lastErr waits _ _
    exact ⟨lastErr, by simp⟩
  | succ j ih =>
    intro attempt left lastErr waits hlt hk
    obtain ⟨l, rfl⟩ : ∃ l, left = l + 1 := ⟨left - 1, by omega⟩
    have hjl : j < l := by omega
    have hl0 : l ≠ 0 := by omega
    have h0 : retryableShape P (env attempt) := by simpa using hk 0 (by omega)
    obtain ⟨le, hrec⟩ := ih (attempt + 1) l (some (errOfAt P attempt (env attempt)))
      (waitOfAt P attempt (env attempt) :: waits) hjl
      (fun k hkj => by
        simpa [Nat.add_assoc, Nat.add_comm 1 k] using hk (k + 1) (by omega))
    refine ⟨le, ?_⟩
    rw [requestGo_retry_step P env attempt l lastErr waits h0 hl0, hrec]
    have hidx : attempt + 1 + j = attempt + (j + 1) := by omega
    have hsub : l - j = l + 1 - (j + 1) := by omega
    have hmap : (List.range (j + 1)).map
          (fun k => waitOfAt P (attempt + k) (env (attempt + k))) =
        waitOfAt P attempt (env attempt) ::
          (List.range j).map
            (fun k => waitOfAt P (attempt + 1 + k) (env (attempt + 1 + k))) := by
      rw [List.range_succ_eq_map]
      simp only [List.map_cons, Nat.add_zero, List.map_map]
      congr 1
      apply List.map_congr_left
      intro k _
      have hk1 : attempt + 1 + k = attempt + (k + 1) := by omega
      simp [Function.comp, hk1]
    rw [hidx, hsub, hmap]
    simp only [List.reverse_cons, List.append_assoc, List.singleton_append]

lemma requestGo_success_step (P : ReqPrims) (env : ℕ → FetchOut) (attempt l : ℕ)
    (lastErr : Option ReqErr) (waits : List ℕ) (s : ℕ) (st body : String)
    (headers : HeadersM) (rid : Option String) (r : Rec)
    (ho : env attempt = .resp s st body headers rid) (h2 : 200 ≤ s ∧ s ≤ 299)
    (hb : body ≠ "") (hp : P.parse body = .ok r) :
    requestGo P env attempt (l + 1) lastErr waits =
      ⟨.ok r, attempt + 1, waits.reverse⟩ := by
  simp [requestGo, ho, h2, hb, hp]

lemma requestGo_empty_step (P : ReqPrims) (env : ℕ → FetchOut) (attempt l : ℕ)
    (lastErr : Option ReqErr) (waits : List ℕ) (s : ℕ) (st : String)
    (headers : HeadersM) (rid : Option String)
    (ho : env attempt = .resp s st "" headers rid) (h2 : 200 ≤ s ∧ s ≤ 299) :
    requestGo P env attempt (l + 1) lastErr waits =
      ⟨.ok [], attempt + 1, waits.reverse⟩ := by
  simp [requestGo, ho, h2]

lemma requestGo_badjson_step (P : ReqPrims) (env : ℕ → FetchOut) (attempt l : ℕ)
    (lastErr : Option ReqErr) (waits : List ℕ) (s : ℕ) (st body m : String)
    (headers : HeadersM) (rid : Option String)
    (ho : env attempt = .resp s st body headers rid) (h2 : 200 ≤ s ∧ s ≤ 299)
    (hb : body ≠ "") (hp : P.parse body = .error m) :
    requestGo P env attempt (l + 1) lastErr waits =
      ⟨.error (.httpError ("Invalid JSON response: " ++ m) none none none none none),
        attempt + 1, waits.reverse⟩ := by
  simp [requestGo, ho, h2, hb, hp]

lemma requestGo_fatal4xx_step (P : ReqPrims) (env : ℕ → FetchOut) (attempt l : ℕ)
    (lastErr : Option ReqErr) (waits : List ℕ) (s : ℕ) (st body : String)
    (headers : HeadersM) (rid : Option String)
    (ho : env attempt = .resp s st body headers rid) (h4 : 400 ≤ s) (h5 : s < 500)
    (h9 : s ≠ 429) :
    requestGo P env attempt (l + 1) lastErr waits =
      ⟨.error (.httpError ("HTTP " ++ natToString s ++ ": " ++ st) (some s)
          (some body) rid (parseErrorMeta P.jsonParse (some body)).code
          (parseErrorMeta P.jsonParse (some body)).etype),
        attempt + 1, waits.reverse⟩ := by
  have hnot2xx : ¬(200 ≤ s ∧ s ≤ 299) := by omega
  have hf : 400 ≤ s ∧ s < 500 := ⟨h4, h5⟩
  simp [requestGo, ho, hnot2xx, h9, hf]

lemma requestGo_fatal429_step (P : ReqPrims) (env : ℕ → FetchOut) (attempt l : ℕ)
    (lastErr : Option ReqErr) (waits : List ℕ) (st body : String)
    (headers : HeadersM) (rid : Option String)
    (ho : env attempt = .resp 429 st body headers rid)
    (hcl : isRetryableRateLimit P.jsonParse (some body) = false) :
    requestGo P env attempt (l + 1) lastErr waits =
      ⟨.error (.rateLimitError "HTTP 429: non-retryable quota/billing limit" false
          (attempt + 1)
          (getRateLimitDelayMs P.jsNum P.dateParse P.nowMs (P.jitter attempt)
            attempt headers)
          (resetHintMs headers) body rid
          (parseErrorMeta P.jsonParse (some body)).code
          (parseErrorMeta P.jsonParse (some body)).etype),
        attempt + 1, waits.reverse⟩ := by
  have hnot2xx : ¬(200 ≤ (429 : ℕ) ∧ (429 : ℕ) ≤ 299) := by omega
  simp [requestGo, ho, hnot2xx, hcl]

/-- C2 (counterexample): the claim "every … malformed (unparseable-JSON)
response body is retryable — the executor waits the computed backoff and
loops" is false: with an attempt budget of 2 and a 200 response whose body
does not parse, `request` raises a typed `HTTPError` after a single
attempt, leaving the budget unexhausted and sleeping no backoff. -/
theorem claim2_cex :
    requestM ⟨fun _ => Except.error "Unexpected end of JSON input", fun _ => none,
        fun _ => none, 0, fun _ => 0⟩ 2
      (fun _ => .resp 200 "OK" "not json" ⟨none, none, none⟩ none) =
      ⟨.error (.httpError "Invalid JSON response: Unexpected end of JSON input"
          none none none none none), 1, []⟩ := rfl

/-- C2 (amended): `request` implements the claimed per-attempt state
machine with one amendment — an unparseable 2xx body raises immediately
instead of retrying.  For every attempt `j` reached after retryable
attempts: a 2xx response returns the parsed payload (`{}` for an empty
body); an unparseable 2xx body raises a typed `HTTPError` at once,
carrying the `SyntaxError` message; a `4xx ≠ 429` raises immediately with
no further attempt, carrying status, status text, body and the provider
metadata (request id, error code/type) parsed from the body; a fatally
classified 429 raises a typed `RateLimitError` carrying the attempt
count, the resolved delay, the reset-header hint and the provider
metadata; and when every attempt in the budget is retryable (network
failure, timeout, retryable 429, or a non-2xx outside the fatal band),
the executor sleeps the resolved delay (for 429) or computed backoff
(otherwise) between attempts and finally raises the last observed failure
as a typed error with the full attempt count.  The classification itself
is the transcribed `isRetryableRateLimit`: empty or malformed bodies are
retryable, a quota code is fatal, a plain rate-limit type is retryable. -/
theorem claim2_request_state_machine (P : ReqPrims) (retries : ℕ)
    (env : ℕ → FetchOut) :
    (∀ j, j < retries → (∀ k, k < j → retryableShape P (env k)) →
      ((∀ s st body headers rid r, env j = .resp s st body headers rid →
          200 ≤ s ∧ s ≤ 299 → body ≠ "" → P.parse body = .ok r →
          requestM P retries env = ⟨.ok r, j + 1, waitsUpTo P env j⟩) ∧
        (∀ s st headers rid, env j = .resp s st "" headers rid →
          200 ≤ s ∧ s ≤ 299 →
          requestM P retries env = ⟨.ok [], j + 1, waitsUpTo P env j⟩) ∧
        (∀ s st body m headers rid, env j = .resp s st body headers rid →
          200 ≤ s ∧ s ≤ 299 → body ≠ "" → P.parse body = .error m →
          requestM P retries env =
            ⟨.error (.httpError ("Invalid JSON response: " ++ m)
                none none none none none),
              j + 1, waitsUpTo P env j⟩) ∧
        (∀ s st body headers rid, env j = .resp s st body headers rid →
          400 ≤ s → s < 500 → s ≠ 429 →
          requestM P retries env =
            ⟨.error (.httpError ("HTTP " ++ natToString s ++ ": " ++ st) (some s)
                (some body) rid (parseErrorMeta P.jsonParse (some body)).code
                (parseErrorMeta P.jsonParse (some body)).etype),
              j + 1, waitsUpTo P env j⟩) ∧
        (∀ st body headers rid, env j = .resp 429 st body headers rid →
          isRetryableRateLimit P.jsonParse (some body) = false →
          requestM P retries env =
            ⟨.error (.rateLimitError "HTTP 429: non-retryable quota/billing limit"
                false (j + 1)
                (getRateLimitDelayMs P.jsNum P.dateParse P.nowMs (P.jitter j) j
                  headers)
                (resetHintMs headers) body rid
                (parseErrorMeta P.jsonParse (some body)).code
                (parseErrorMeta P.jsonParse (some body)).etype),
              j + 1, waitsUpTo P env j⟩))) ∧
    ((∀ k, k < retries → retryableShape P (env k)) → 1 ≤ retries →
      requestM P retries env =
        ⟨.error (errOfAt P (retries - 1) (env (retries - 1))), retries,
          waitsUpTo P env (retries - 1)⟩) ∧
    (isRetryableRateLimit P.jsonParse (some "") = true ∧
      isRetryableRateLimit (fun _ => none) (some "server melted") = true ∧
      isRetryableRateLimit
        (fun _ => some [("error", JVal.obj [("code", JVal.str "insufficient_quota")])])
        (some "quota-body") = false ∧
      isRetryableRateLimit
        (fun _ => some [("error", JVal.obj [("type", JVal.str "rate_limit_exceeded")])])
        (some "limit-body") = true) := by
  refine ⟨?_, ?_, ?_⟩
  · intro j hj hk
    obtain ⟨le, heq⟩ := requestGo_skip P env j 0 retries none [] (by omega)
      (fun k hkj => by simpa using hk k hkj)
    simp only [Nat.zero_add, List.append_nil] at heq
    obtain ⟨m, hm⟩ : ∃ m, retries - j = m + 1 := ⟨retries - j - 1, by omega⟩
    rw [hm] at heq
    refine ⟨?_, ?_, ?_, ?_, ?_⟩
    · intro s st body headers rid r ho h2 hb hp
      rw [requestM, heq, requestGo_success_step P env j m le _ s st body headers
        rid r ho h2 hb hp]
      simp [waitsUpTo]
    · intro s st headers rid ho h2
      rw [requestM, heq, requestGo_empty_step P env j m le _ s st headers rid ho h2]
      simp [waitsUpTo]
    · intro s st body m' headers rid ho h2 hb hp
      rw [requestM, heq, requestGo_badjson_step P env j m le _ s st body m'
        headers rid ho h2 hb hp]
      simp [waitsUpTo]
    · intro s st body headers rid ho h4 h5 h9
      rw [requestM, heq, requestGo_fatal4xx_step P env j m le _ s st body headers
        rid ho h4 h5 h9]
      simp [waitsUpTo]
    · intro st body headers rid ho hcl
      rw [requestM, heq, requestGo_fatal429_step P env j m le _ st body headers
        rid ho hcl]
      simp [waitsUpTo]
  · intro hk hr
    obtain ⟨le, heq⟩ := requestGo_skip P env (retries - 1) 0 retries none []
      (by omega) (fun k hkj => by simpa using hk k (by omega))
    simp only [Nat.zero_add, List.append_nil] at heq
    have h1 : retries - (retries - 1) = 1 := by omega
    rw [h1] at heq
    rw [requestM, heq, requestGo_final_step P env (retries - 1) le _
      (hk (retries - 1) (by omega))]
    have h2 : retries - 1 + 1 = retries := by omega
    rw [h2]
    simp [waitsUpTo]
  · exact ⟨rfl, by decide, by decide, by decide⟩

/-- C2 (witness): a network failure on attempt 0 (retried after the 1000 ms
backoff with zero jitter) followed by a parseable 200 on attempt 1. -/
theorem claim2_witness :
    requestM ⟨fun s => if s = "b" then Except.ok [] else Except.error "bad",
        fun _ => none, fun _ => none, 0, fun _ => 0⟩ 2
      (fun k => if k = 0 then .netErr "TypeError" "fetch failed"
        else .resp 200 "OK" "b" ⟨none, none, none⟩ none) =
      ⟨.ok [], 2, [1000]⟩ := by
  have h := ((claim2_request_state_machine
      ⟨fun s => if s = "b" then Except.ok [] else Except.error "bad",
        fun _ => none, fun _ => none, 0, fun _ => 0⟩ 2
      (fun k => if k = 0 then .netErr "TypeError" "fetch failed"
        else .resp 200 "OK" "b" ⟨none, none, none⟩ none)).1 1 (by omega)
      (fun k hkj => by
        have hk0 : k = 0 := by omega
        subst hk0
        simp [retryableShape])).1 200 "OK" "b" ⟨none, none, none⟩ none []
      (by simp) (by omega) (by simp) (by simp)
  exact h.trans (by rfl)

/-! ## C3 — stampede control -/

lemma liveCalls_eq_of_procs {n : ℕ} (s s' : SState n)
    (h : ∀ i, (s'.procs i).called = (s.procs i).called) :
    liveCalls s' = liveCalls s := by
  unfold liveCalls
  congr 1
  apply Finset.filter_congr
  intro i _
  rw [h i]

lemma liveCalls_mono_update {n : ℕ} (s : SState n) (cache' : Option ℕ)
    (lock' : Option ℕ) (now' : ℕ) (i : Fin n) (pr1 : SProc)
    (hmono : (s.procs i).called = true → pr1.called = true) :
    liveCalls s ≤
      liveCalls (⟨cache', lock', now', Function.update s.procs i pr1⟩ : SState n) := by
  unfold liveCalls
  apply Finset.card_le_card
  intro x hx
  simp only [Finset.mem_filter, Finset.mem_univ, true_and] at hx ⊢
  by_cases hxi : x = i
  · subst hxi
    rw [Function.update_same]
    exact hmono hx
  · rw [Function.update_noteq hxi]
    exact hx

lemma liveCalls_pos_update {n : ℕ} (s : SState n) (cache' : Option ℕ)
    (lock' : Option ℕ) (now' : ℕ) (i : Fin n) (pr1 : SProc)
    (hcalled : pr1.called = true) :
    1 ≤ liveCalls (⟨cache', lock', now', Function.update s.procs i pr1⟩ : SState n) := by
  unfold liveCalls
  rw [Nat.one_le_iff_ne_zero, ← Nat.pos_iff_ne_zero, Finset.card_pos]
  exact ⟨i, by simp [Function.update_same, hcalled]⟩

lemma liveCalls_le {n : ℕ} (s : SState n) : liveCalls s ≤ n := by
  unfold liveCalls
  calc (Finset.univ.filter fun i => (s.procs i).called).card ≤ Finset.univ.card :=
        Finset.card_filter_le _ _
    _ = n := by simp

lemma stampedeStep_inv {n : ℕ} (p cd : ℕ) (s : SState n) (i : Fin n)
    (h : StampedeInv p s) : StampedeInv p (stampedeStep p cd s i) := by
  obtain ⟨hc, hcall, hres, hlive⟩ := h
  cases hpc : (s.procs i).pc with
  | start =>
    cases hcache : s.cache with
    | some v =>
      have hvp : v = p := by
        rcases hc with h0 | h0
        · rw [h0] at hcache; cases hcache
        · rw [h0] at hcache; exact (Option.some.inj hcache).symm
      simp only [stampedeStep, hpc, hcache]
      refine ⟨Or.inr (by rw [hvp]), ?_, ?_, ?_⟩
      · intro x hx
        dsimp only at hx
        by_cases hxi : x = i
        · subst hxi
          rw [Function.update_same] at hx
          simp at hx
        · rw [Function.update_noteq hxi] at hx
          dsimp only
          rw [Function.update_noteq hxi]
          exact hcall x hx
      · intro x hx
        dsimp only at hx
        by_cases hxi : x = i
        · subst hxi
          dsimp only
          rw [Function.update_same]
          rw [hvp]
        · rw [Function.update_noteq hxi] at hx
          dsimp only
          rw [Function.update_noteq hxi]
          exact hres x hx
      · intro _
        refine le_trans (hlive (Or.inl (by rw [hcache]; simp))) ?_
        exact liveCalls_mono_update s _ _ _ i _ (fun hx => hx)
    | none =>
      simp only [stampedeStep, hpc, hcache]
      refine ⟨Or.inl rfl, ?_, ?_, ?_⟩
      · intro x hx
        dsimp only at hx
        by_cases hxi : x = i
        · subst hxi
          rw [Function.update_same] at hx
          simp at hx
        · rw [Function.update_noteq hxi] at hx
          dsimp only
          rw [Function.update_noteq hxi]
          exact hcall x hx
      · intro x hx
        dsimp only at hx
        by_cases hxi : x = i
        · subst hxi
          rw [Function.update_same] at hx
          simp [SPC.finished] at hx
        · rw [Function.update_noteq hxi] at hx
          dsimp only
          rw [Function.update_noteq hxi]
          exact hres x hx
      · intro hante
        dsimp only at hante
        refine le_trans (hlive ?_) (liveCalls_mono_update s _ _ _ i _ (fun hx => hx))
        rcases hante with h0 | ⟨j, hj⟩
        · first
            | exact Or.inl h0
            | exact absurd rfl h0
        · by_cases hji : j = i
          · subst hji
            rw [Function.update_same] at hj
            simp [SPC.finished] at hj
          · rw [Function.update_noteq hji] at hj
            exact Or.inr ⟨j, hj⟩
  | tryLock =>
    cases hlock : s.lock with
    | none =>
      simp only [stampedeStep, hpc, hlock]
      refine ⟨hc, ?_, ?_, ?_⟩
      · intro x hx
        dsimp only at hx
        by_cases hxi : x = i
        · subst hxi
          rw [Function.update_same] at hx
          simp at hx
        · rw [Function.update_noteq hxi] at hx
          dsimp only
          rw [Function.update_noteq hxi]
          exact hcall x hx
      · intro x hx
        dsimp only at hx
        by_cases hxi : x = i
        · subst hxi
          rw [Function.update_same] at hx
          simp [SPC.finished] at hx
        · rw [Function.update_noteq hxi] at hx
          dsimp only
          rw [Function.update_noteq hxi]
          exact hres x hx
      · intro hante
        dsimp only at hante
        refine le_trans (hlive ?_) (liveCalls_mono_update s _ _ _ i _ (fun hx => hx))
        rcases hante with h0 | ⟨j, hj⟩
        · first
            | exact Or.inl h0
            | exact absurd rfl h0
        · by_cases hji : j = i
          · subst hji
            rw [Function.update_same] at hj
            simp [SPC.finished] at hj
          · rw [Function.update_noteq hji] at hj
            exact Or.inr ⟨j, hj⟩
    | some t =>
      simp only [stampedeStep, hpc, hlock]
      split_ifs with h1 h2
      · exact ⟨hc, hcall, hres, fun ha => hlive ha⟩
      · refine ⟨hc, ?_, ?_, ?_⟩
        · intro x hx
          dsimp only at hx
          by_cases hxi : x = i
          · subst hxi
            rw [Function.update_same] at hx
            simp at hx
          · rw [Function.update_noteq hxi] at hx
            dsimp only
            rw [Function.update_noteq hxi]
            exact hcall x hx
        · intro x hx
          dsimp only at hx
          by_cases hxi : x = i
          · subst hxi
            rw [Function.update_same] at hx
            simp [SPC.finished] at hx
          · rw [Function.update_noteq hxi] at hx
            dsimp only
            rw [Function.update_noteq hxi]
            exact hres x hx
        · intro hante
          dsimp only at hante
          refine le_trans (hlive ?_) (liveCalls_mono_update s _ _ _ i _ (fun hx => hx))
          rcases hante with h0 | ⟨j, hj⟩
          · exact Or.inl h0
          · by_cases hji : j = i
            · subst hji
              rw [Function.update_same] at hj
              simp [SPC.finished] at hj
            · rw [Function.update_noteq hji] at hj
              exact Or.inr ⟨j, hj⟩
      · exact ⟨hc, hcall, hres, fun ha => hlive ha⟩
  | recheck =>
    cases hcache : s.cache with
    | some v =>
      have hvp : v = p := by
        rcases hc with h0 | h0
        · rw [h0] at hcache; cases hcache
        · rw [h0] at hcache; exact (Option.some.inj hcache).symm
      simp only [stampedeStep, hpc, hcache]
      refine ⟨Or.inr (by rw [hvp]), ?_, ?_, ?_⟩
      · intro x hx
        dsimp only at hx
        by_cases hxi : x = i
        · subst hxi
          rw [Function.update_same] at hx
          simp at hx
        · rw [Function.update_noteq hxi] at hx
          dsimp only
          rw [Function.update_noteq hxi]
          exact hcall x hx
      · intro x hx
        dsimp only at hx
        by_cases hxi : x = i
        · subst hxi
          dsimp only
          rw [Function.update_same]
          rw [hvp]
        · rw [Function.update_noteq hxi] at hx
          dsimp only
          rw [Function.update_noteq hxi]
          exact hres x hx
      · intro _
        refine le_trans (hlive (Or.inl (by rw [hcache]; simp))) ?_
        exact liveCalls_mono_update s _ _ _ i _ (fun hx => hx)
    | none =>
      simp only [stampedeStep, hpc, hcache]
      refine ⟨Or.inl rfl, ?_, ?_, ?_⟩
      · intro x hx
        dsimp only at hx
        by_cases hxi : x = i
        · subst hxi
          rw [Function.update_same] at hx
          simp at hx
        · rw [Function.update_noteq hxi] at hx
          dsimp only
          rw [Function.update_noteq hxi]
          exact hcall x hx
      · intro x hx
        dsimp only at hx
        by_cases hxi : x = i
        · subst hxi
          rw [Function.update_same] at hx
          simp [SPC.finished] at hx
        · rw [Function.update_noteq hxi] at hx
          dsimp only
          rw [Function.update_noteq hxi]
          exact hres x hx
      · intro hante
        dsimp only at hante
        refine le_trans (hlive ?_) (liveCalls_mono_update s _ _ _ i _ (fun hx => hx))
        rcases hante with h0 | ⟨j, hj⟩
        · first
            | exact Or.inl h0
            | exact absurd rfl h0
        · by_cases hji : j = i
          · subst hji
            rw [Function.update_same] at hj
            simp [SPC.finished] at hj
          · rw [Function.update_noteq hji] at hj
            exact Or.inr ⟨j, hj⟩
  | calling =>
    simp only [stampedeStep, hpc]
    refine ⟨hc, ?_, ?_, ?_⟩
    · intro x hx
      dsimp only at hx
      by_cases hxi : x = i
      · subst hxi
        dsimp only
        rw [Function.update_same]
      · rw [Function.update_noteq hxi] at hx
        dsimp only
        rw [Function.update_noteq hxi]
        exact hcall x hx
    · intro x hx
      dsimp only at hx
      by_cases hxi : x = i
      · subst hxi
        rw [Function.update_same] at hx
        simp [SPC.finished] at hx
      · rw [Function.update_noteq hxi] at hx
        dsimp only
        rw [Function.update_noteq hxi]
        exact hres x hx
    · intro _
      exact liveCalls_pos_update s _ _ _ i _ rfl
  | releasing =>
    have hci : (s.procs i).called = true := hcall i (Or.inl hpc)
    simp only [stampedeStep, hpc]
    split_ifs with h1
    · refine ⟨hc, ?_, ?_, ?_⟩
      · intro x hx
        dsimp only at hx
        by_cases hxi : x = i
        · subst hxi
          dsimp only
          rw [Function.update_same]
          exact hci
        · rw [Function.update_noteq hxi] at hx
          dsimp only
          rw [Function.update_noteq hxi]
          exact hcall x hx
      · intro x hx
        dsimp only at hx
        by_cases hxi : x = i
        · subst hxi
          rw [Function.update_same] at hx
          simp [SPC.finished] at hx
        · rw [Function.update_noteq hxi] at hx
          dsimp only
          rw [Function.update_noteq hxi]
          exact hres x hx
      · intro _
        exact liveCalls_pos_update s _ _ _ i _ hci
    · refine ⟨hc, ?_, ?_, ?_⟩
      · intro x hx
        dsimp only at hx
        by_cases hxi : x = i
        · subst hxi
          dsimp only
          rw [Function.update_same]
          exact hci
        · rw [Function.update_noteq hxi] at hx
          dsimp only
          rw [Function.update_noteq hxi]
          exact hcall x hx
      · intro x hx
        dsimp only at hx
        by_cases hxi : x = i
        · subst hxi
          rw [Function.update_same] at hx
          simp [SPC.finished] at hx
        · rw [Function.update_noteq hxi] at hx
          dsimp only
          rw [Function.update_noteq hxi]
          exact hres x hx
      · intro _
        exact liveCalls_pos_update s _ _ _ i _ hci
  | saving =>
    have hci : (s.procs i).called = true := hcall i (Or.inr (Or.inl hpc))
    simp only [stampedeStep, hpc]
    refine ⟨Or.inr rfl, ?_, ?_, ?_⟩
    · intro x hx
      dsimp only at hx
      by_cases hxi : x = i
      · subst hxi
        dsimp only
        rw [Function.update_same]
        exact hci
      · rw [Function.update_noteq hxi] at hx
        dsimp only
        rw [Function.update_noteq hxi]
        exact hcall x hx
    · intro x hx
      dsimp only at hx
      by_cases hxi : x = i
      · subst hxi
        dsimp only
        rw [Function.update_same]
      · rw [Function.update_noteq hxi] at hx
        dsimp only
        rw [Function.update_noteq hxi]
        exact hres x hx
    · intro _
      exact liveCalls_pos_update s _ _ _ i _ hci
  | doneLive =>
    simp only [stampedeStep, hpc]
    exact ⟨hc, hcall, hres, hlive⟩
  | doneCache =>
    simp only [stampedeStep, hpc]
    exact ⟨hc, hcall, hres, hlive⟩

lemma stampedeRun_inv {n : ℕ} (p cd : ℕ) :
    ∀ (sched : List (Fin n)) (s : SState n), StampedeInv p s →
      StampedeInv p (stampedeRun p cd s sched) := by
  intro sched
  induction sched with
  | nil => exact fun s h => h
  | cons i rest ih =>
    intro s h
    exact ih (stampedeStep p cd s i) (stampedeStep_inv p cd s i h)

lemma initState_inv (p : ℕ) (n : ℕ) : StampedeInv p (initState n) := by
  refine ⟨Or.inl rfl, ?_, ?_, ?_⟩
  · intro i hx
    simp [initState, initProc] at hx
  · intro i hx
    simp [initState, initProc, SPC.finished] at hx
  · intro hante
    rcases hante with h0 | ⟨j, hj⟩
    · exact absurd rfl h0
    · simp [initState, initProc, SPC.finished] at hj

/-- C3 (counterexample): the claim "N concurrent fetch calls for the same
key all starting within the lock's max-wait window, fresh cache initially
empty, produce exactly one live-call invocation" is false.  Two processes
both start at t = 0 (well within the 5000 ms window): the first acquires
the lock, completes its live call, releases and writes; the second,
polling, then acquires the freed lock and — because `searchRedditTask`
only re-checks the cache when acquisition *fails* — performs a second live
call.  Both finish; the stub counts 2 invocations. -/
theorem claim3_cex :
    liveCalls (stampedeRun 7 1000 (initState 2) [0, 1, 0, 1, 0, 0, 0, 1, 1, 1, 1]) = 2 ∧
    ((stampedeRun 7 1000 (initState 2) [0, 1, 0, 1, 0, 0, 0, 1, 1, 1, 1]).procs 0).startT =
      some 0 ∧
    ((stampedeRun 7 1000 (initState 2) [0, 1, 0, 1, 0, 0, 0, 1, 1, 1, 1]).procs 1).startT =
      some 0 ∧
    ((stampedeRun 7 1000 (initState 2) [0, 1, 0, 1, 0, 0, 0, 1, 1, 1, 1]).procs 0).pc =
      SPC.doneLive ∧
    ((stampedeRun 7 1000 (initState 2) [0, 1, 0, 1, 0, 0, 0, 1, 1, 1, 1]).procs 1).pc =
      SPC.doneLive ∧
    (initState 2).cache = none := by
  decide

/-- C3 (amended): in the stampede scenario (same key, fresh cache
initially empty, deterministic live stub returning `p`), for every number
of processes and every interleaving: every process that finishes returns
the same payload `p`; between 1 and N live-call invocations occur once
anyone has finished (exactly one is not guaranteed — see the
counterexample). -/
theorem claim3_stampede (p callDur n : ℕ) (sched : List (Fin n)) :
    (∀ i : Fin n,
      ((stampedeRun p callDur (initState n) sched).procs i).pc.finished = true →
      ((stampedeRun p callDur (initState n) sched).procs i).result = some p) ∧
    liveCalls (stampedeRun p callDur (initState n) sched) ≤ n ∧
    ((∃ i : Fin n,
        ((stampedeRun p callDur (initState n) sched).procs i).pc.finished = true) →
      1 ≤ liveCalls (stampedeRun p callDur (initState n) sched)) := by
  have h := stampedeRun_inv p callDur sched (initState n) (initState_inv p n)
  obtain ⟨_, _, hres, hlive⟩ := h
  exact ⟨hres, liveCalls_le _, fun he => hlive (Or.inr he)⟩

/-- C3 (witness): a single process runs to completion; exactly its one
live call is counted and it returns the stub payload. -/
theorem claim3_witness :
    ((stampedeRun 7 0 (initState 1) [0, 0, 0, 0, 0]).procs 0).result = some 7 ∧
    1 ≤ liveCalls (stampedeRun 7 0 (initState 1) [0, 0, 0, 0, 0]) := by
  constructor
  · exact (claim3_stampede 7 0 1 [0, 0, 0, 0, 0]).1 0 (by decide)
  · exact (claim3_stampede 7 0 1 [0, 0, 0, 0, 0]).2.2 ⟨0, by decide⟩

end LastDays
